import Mathlib

/-!
Verification of the indexedcp chunked-upload protocol.

Shallow embedding of the Python implementation in
src/python/src/indexedcp (client.py, server.py).  Client state (the
SQLite chunk store) is modelled as a list of chunk records threaded
explicitly through the functions; the HTTP transport is an oracle
mapping (fileName, chunkIndex) to the outcome of the call; server state
(the in-memory session map and the filesystem under the upload root) is
threaded likewise.  Timestamps and retry delays are exact rationals
standing for the floating-point millisecond clock values of the code.
Byte strings are lists of naturals; the hex encoding the client applies
before persisting chunk data (data.hex / bytes.fromhex) is a bijection,
so records carry the byte content directly.
-/

deriving instance DecidableEq for Except

namespace IndexedCP

/-- Byte strings: a list of byte values. -/
abbrev Bytes := List Nat

/-- One entry of the bounded error ring in retryMetadata. -/
structure RetryErrorEntry where
  timestamp : ℚ
  message : String
deriving DecidableEq, Repr

/-- retryMetadata of a chunk record (client.py add_file, lines 158-163). -/
structure RetryMetadata where
  retryCount : Nat
  lastAttempt : Option ℚ
  nextRetry : ℚ
  errors : List RetryErrorEntry
deriving DecidableEq, Repr

/-- A chunk record as persisted by add_file (client.py lines 152-164). -/
structure ChunkRecord where
  id : String
  fileName : String
  chunkIndex : Nat
  data : Bytes
  retryMetadata : RetryMetadata
deriving DecidableEq, Repr

/-- The chunk store: the rows of the SQLite chunks table in load_all
order (insertion order). -/
abbrev Store := List ChunkRecord

/-- Client configuration (IndexedCPClient constructor).  maxRetries is
an optional bound: none models the default float inf, where the
comparison retryCount >= max_retries is always false. -/
structure ClientConfig where
  chunkSize : Nat
  maxRetries : Option Nat
  initialRetryDelay : ℚ
  maxRetryDelay : ℚ
  retryMultiplier : ℚ

/-- The check retry_metadata.retryCount >= self.max_retries
(client.py line 275 and 544). -/
def reachedMaxRetries (cfg : ClientConfig) (rc : Nat) : Bool :=
  match cfg.maxRetries with
  | none => false
  | some m => m ≤ rc

/-- The read loop of add_file (client.py lines 146-149): f.read(C)
returns the next min(C, remaining) bytes and the loop stops on an empty
read, which happens at end of file or when C = 0. -/
def readChunks (C : Nat) (bs : Bytes) : List Bytes :=
  if C = 0 ∨ bs = [] then []
  else bs.take C :: readChunks C (bs.drop C)
termination_by bs.length
decreasing_by
  rename_i h
  push_neg at h
  have hC : 0 < C := Nat.pos_of_ne_zero h.1
  have hbs : 0 < bs.length := List.length_pos.mpr h.2
  simp only [List.length_drop]
  omega

/-- add_file (client.py lines 113-172): split the file contents into
chunkSize windows and build one record per window, key
"{filepath}-{index}", with fresh retry metadata.  The records are saved
to the store in index order; the function returns their number. -/
def add_file (cfg : ClientConfig) (filepath : String) (contents : Bytes)
    (now : ℚ) : List ChunkRecord :=
  (readChunks cfg.chunkSize contents).enum.map fun p =>
    { id := filepath ++ "-" ++ toString p.1
      fileName := filepath
      chunkIndex := p.1
      data := p.2
      retryMetadata :=
        { retryCount := 0
          lastAttempt := none
          nextRetry := now
          errors := [] } }

/-- Return value of add_file: the number of chunks created. -/
def add_file_count (cfg : ClientConfig) (filepath : String)
    (contents : Bytes) (now : ℚ) : Nat :=
  (add_file cfg filepath contents now).length

/-- Parsed JSON body of a successful upload response, as consumed by the
client (_upload_chunk returns the parsed dictionary or none for a
non-JSON body). -/
structure ChunkResponse where
  actualFilename : Option String
deriving DecidableEq, Repr

/-- Outcome of one transport call for a chunk. -/
inductive TransportResult where
  | ok (resp : Option ChunkResponse)
  | err (message : String)
deriving DecidableEq, Repr

/-- The transport oracle: outcome of the HTTP call for a given
(fileName, chunkIndex).  Within one pass each chunk is attempted at
most once, so a per-pass oracle keyed this way is deterministic. -/
abbrev Transport := String → Nat → TransportResult

/-- storage.delete(key): the SQLite row with that key is removed. -/
def deleteRecord (store : Store) (id : String) : Store :=
  store.filter fun r => r.id ≠ id

/-- storage.save(key, record): INSERT OR REPLACE keyed by the id. -/
def saveRecord (store : Store) (rec : ChunkRecord) : Store :=
  if store.any fun r => r.id = rec.id then
    store.map fun r => if r.id = rec.id then rec else r
  else
    store ++ [rec]

/-- Eligibility checks at the top of the chunk loop (client.py lines
270-279): skip when nextRetry lies in the future, skip when retryCount
has reached max_retries. -/
def eligible (cfg : ClientConfig) (now : ℚ) (c : ChunkRecord) : Bool :=
  decide (c.retryMetadata.nextRetry ≤ now)
    && !(reachedMaxRetries cfg c.retryMetadata.retryCount)

/-- The capture test for the server-declared filename (client.py line
299): the parsed response must be present and carry a truthy (nonempty)
actualFilename. -/
def responseActual (resp : Option ChunkResponse) : Option String :=
  match resp with
  | none => none
  | some r =>
    match r.actualFilename with
    | none => none
    | some af => if af = "" then none else some af

/-- Python list slicing errors[-5:]: keep only the last 5 entries, and
only when the list holds more than 5 (client.py lines 329-330). -/
def trimErrors (es : List RetryErrorEntry) : List RetryErrorEntry :=
  if 5 < es.length then es.drop (es.length - 5) else es

/-- State threaded through one _upload_file_chunks pass: the chunk
store plus the local variables server_filename, errors (kept as a
count) and success_count.  attempts is instrumentation recording the
chunkIndex of every chunk for which a transport call was made. -/
structure GroupPassState where
  store : Store
  serverFilename : Option String
  errorsCount : Nat
  successCount : Nat
  attempts : List Nat
deriving DecidableEq, Repr

/-- Body of the per-chunk loop of _upload_file_chunks (client.py lines
255-353).  A chunk that is not due or has exhausted its retries is
skipped.  Otherwise lastAttempt and retryCount are updated and the
transport is called: on success the server filename is captured from
the first response that carries one and the record is deleted; on
failure the backoff delay min(initial * multiplier^(retryCount-1),
maxDelay), converted to milliseconds, sets nextRetry, the error joins
the bounded ring, and the record is saved back. -/
def processChunk (cfg : ClientConfig) (tr : Transport) (fileName : String)
    (now : ℚ) (st : GroupPassState) (chunk : ChunkRecord) : GroupPassState :=
  if ¬ (eligible cfg now chunk) then st
  else
    let rm1 : RetryMetadata :=
      { chunk.retryMetadata with
          lastAttempt := some now
          retryCount := chunk.retryMetadata.retryCount + 1 }
    match tr fileName chunk.chunkIndex with
    | .ok resp =>
      let sf :=
        match st.serverFilename with
        | some s => some s
        | none => responseActual resp
      { store := deleteRecord st.store chunk.id
        serverFilename := sf
        errorsCount := st.errorsCount
        successCount := st.successCount + 1
        attempts := st.attempts ++ [chunk.chunkIndex] }
    | .err msg =>
      let delay : ℚ :=
        min (cfg.initialRetryDelay
              * cfg.retryMultiplier ^ (rm1.retryCount - 1))
          cfg.maxRetryDelay * 1000
      let rm2 : RetryMetadata :=
        { rm1 with
            nextRetry := now + delay
            errors := trimErrors (rm1.errors ++ [⟨now, msg⟩]) }
      { store := saveRecord st.store { chunk with retryMetadata := rm2 }
        serverFilename := st.serverFilename
        errorsCount := st.errorsCount + 1
        successCount := st.successCount
        attempts := st.attempts ++ [chunk.chunkIndex] }

/-- The record persisted back by the failure branch of the chunk loop
(client.py lines 315-334), spelled out as a function of the chunk, the
pass timestamp and the error message. -/
def failureUpdate (cfg : ClientConfig) (now : ℚ) (msg : String)
    (c : ChunkRecord) : ChunkRecord :=
  { c with retryMetadata :=
      { retryCount := c.retryMetadata.retryCount + 1
        lastAttempt := some now
        nextRetry := now +
          min (cfg.initialRetryDelay
                * cfg.retryMultiplier ^ c.retryMetadata.retryCount)
            cfg.maxRetryDelay * 1000
        errors := trimErrors (c.retryMetadata.errors ++ [⟨now, msg⟩]) } }

/-- A chunk that will be attempted in this pass and whose transport
call fails: such chunks populate the errors list of the pass. -/
def chunkFails (cfg : ClientConfig) (tr : Transport) (fn : String)
    (now : ℚ) (c : ChunkRecord) : Bool :=
  eligible cfg now c &&
    (match tr fn c.chunkIndex with
     | .err _ => true
     | .ok _ => false)

/-- Stable insertion of a chunk after all chunks with chunkIndex less
than or equal to its own. -/
def insertChunk : List ChunkRecord → ChunkRecord → List ChunkRecord
  | [], c => [c]
  | d :: ds, c =>
    if d.chunkIndex ≤ c.chunkIndex then d :: insertChunk ds c
    else c :: d :: ds

/-- chunks.sort(key=chunkIndex): stable ascending sort (client.py line
247). -/
def sortChunks (cs : List ChunkRecord) : List ChunkRecord :=
  cs.foldl insertChunk []

/-- Python Path(name).name: the final path component. -/
def basename (s : String) : String :=
  ⟨s.toList.foldl (fun acc c => if c = '/' then [] else acc ++ [c]) []⟩

/-- _upload_file_chunks (client.py lines 227-366): sort the group by
chunkIndex, run the chunk loop over the whole group, then raise the
aggregate error naming the number of failed chunks if any chunk failed,
else return the (fileName, serverFilename) pair, defaulting to the
basename when the server declared no name.  The returned state carries
the store as mutated by the pass, which persists even when the
aggregate error is raised. -/
def upload_file_chunks (cfg : ClientConfig) (tr : Transport)
    (fileName : String) (chunks : List ChunkRecord) (now : ℚ)
    (store : Store) : GroupPassState × Except String (String × String) :=
  let st := (sortChunks chunks).foldl (processChunk cfg tr fileName now)
    { store := store, serverFilename := none, errorsCount := 0,
      successCount := 0, attempts := [] }
  if st.errorsCount ≠ 0 then
    (st, .error (toString st.errorsCount ++ " chunk(s) failed for " ++ fileName))
  else
    (st, .ok (fileName, st.serverFilename.getD (basename fileName)))

/-- Grouping by fileName (client.py lines 210-215): the dictionary keys
in first-appearance order. -/
def fileNamesOf (store : Store) : List String :=
  store.foldl (fun acc r => if r.fileName ∈ acc then acc else acc ++ [r.fileName]) []

/-- The records of one file group, taken from the records loaded at the
start of the pass. -/
def groupOf (store : Store) (fn : String) : List ChunkRecord :=
  store.filter fun r => r.fileName = fn

/-- Result of a whole upload_buffered_files pass: the final store, the
(fileName, chunkIndex) pairs for which a transport call was made, and
either the result map or the propagated aggregate error. -/
structure BufferedResult where
  store : Store
  attempts : List (String × Nat)
  result : Except String (List (String × String))
deriving DecidableEq, Repr

/-- The per-group loop of upload_buffered_files (client.py lines
219-225).  Groups are processed sequentially; each group reads the
clock once (nowAt names the value it observes).  The loop carries no
exception handler, so the aggregate error of a failing group propagates
at once and the remaining groups are not reached. -/
def uploadNames (cfg : ClientConfig) (tr : Transport) (nowAt : String → ℚ)
    (store₀ : Store) : List String → Store → List (String × Nat) →
    List (String × String) → BufferedResult
  | [], store, att, acc => ⟨store, att, .ok acc⟩
  | fn :: rest, store, att, acc =>
    let r := upload_file_chunks cfg tr fn (groupOf store₀ fn) (nowAt fn) store
    match r.2 with
    | .error msg =>
      ⟨r.1.store, att ++ r.1.attempts.map (fun i => (fn, i)), .error msg⟩
    | .ok p =>
      uploadNames cfg tr nowAt store₀ rest r.1.store
        (att ++ r.1.attempts.map (fun i => (fn, i))) (acc ++ [p])

/-- upload_buffered_files (client.py lines 174-225): load all records,
return the empty map when there are none, group by fileName and upload
the groups sequentially.  The configuration checks on server_url and
api_key are outside the model. -/
def upload_buffered_files (cfg : ClientConfig) (tr : Transport)
    (nowAt : String → ℚ) (store : Store) : BufferedResult :=
  if store.isEmpty then ⟨store, [], .ok []⟩
  else uploadNames cfg tr nowAt store (fileNamesOf store) store [] []

/-- The eligibility filter of _process_background_upload (client.py
lines 526-547), applied with the clock value read once at the start of
the background pass. -/
def retryableRecords (cfg : ClientConfig) (now : ℚ) (store : Store) :
    List ChunkRecord :=
  store.filter (eligible cfg now)

/-- Result of one background pass: final store, transport attempts, and
the counts of file groups that succeeded and failed. -/
structure BackgroundResult where
  store : Store
  attempts : List (String × Nat)
  succeeded : Nat
  failed : Nat
deriving DecidableEq, Repr

/-- The per-group loop of _process_background_upload (client.py lines
570-576): unlike the foreground pass, each group runs under an
exception handler, so a failing group only increments the failed count
and the loop continues with the remaining groups. -/
def backgroundNames (cfg : ClientConfig) (tr : Transport)
    (nowAt : String → ℚ) (retryable : List ChunkRecord) :
    List String → Store → List (String × Nat) → Nat → Nat → BackgroundResult
  | [], store, att, s, f => ⟨store, att, s, f⟩
  | fn :: rest, store, att, s, f =>
    let r := upload_file_chunks cfg tr fn (groupOf retryable fn) (nowAt fn) store
    match r.2 with
    | .error _ =>
      backgroundNames cfg tr nowAt retryable rest r.1.store
        (att ++ r.1.attempts.map (fun i => (fn, i))) s (f + 1)
    | .ok _ =>
      backgroundNames cfg tr nowAt retryable rest r.1.store
        (att ++ r.1.attempts.map (fun i => (fn, i))) (s + 1) f

/-- _process_background_upload (client.py lines 498-587): filter the
records due for a retry, group them by fileName and upload the groups
sequentially, catching the per-group error. -/
def process_background_upload (cfg : ClientConfig) (tr : Transport)
    (now₀ : ℚ) (nowAt : String → ℚ) (store : Store) : BackgroundResult :=
  let retryable := retryableRecords cfg now₀ store
  backgroundNames cfg tr nowAt retryable (fileNamesOf retryable) store [] 0 0

/-- A Python exception as raised by _upload_chunk: the class it is
constructed from and its message string.  Every failure path of
_upload_chunk raises the built-in RuntimeError (client.py lines
403-434); no dedicated exception classes exist in the module. -/
structure PyError where
  className : String
  message : String
deriving DecidableEq, Repr

/-- What urllib reports back for the HTTP POST of one chunk: a returned
response object (urlopen returns normally), an HTTPError carrying the
status code, or a URLError for a connection-level failure.  bodyJson is
the result of parsing the body as JSON: none models a non-JSON body
(json.loads raises and the client returns None). -/
inductive HttpOutcome where
  | response (status : Nat) (reason : String) (bodyJson : Option ChunkResponse)
  | httpError (code : Nat) (reason : String)
  | urlError (reason : String)
deriving DecidableEq, Repr

/-- _upload_chunk (client.py lines 368-434), as a function of the
observed HTTP outcome: 401 raises
RuntimeError("Authentication failed: Invalid API key"); any other
non-200 status raises RuntimeError("Upload failed: status - reason");
a URLError raises RuntimeError("Upload failed: reason"); a 200 response
returns the parsed JSON body, or None when it is not JSON. -/
def upload_chunk (outcome : HttpOutcome) :
    Except PyError (Option ChunkResponse) :=
  match outcome with
  | .response status reason bodyJson =>
    if status = 401 then
      .error ⟨"RuntimeError", "Authentication failed: Invalid API key"⟩
    else if status ≠ 200 then
      .error ⟨"RuntimeError",
        "Upload failed: " ++ toString status ++ " - " ++ reason⟩
    else
      .ok bodyJson
  | .httpError code reason =>
    if code = 401 then
      .error ⟨"RuntimeError", "Authentication failed: Invalid API key"⟩
    else
      .error ⟨"RuntimeError",
        "Upload failed: " ++ toString code ++ " - " ++ reason⟩
  | .urlError reason =>
    .error ⟨"RuntimeError", "Upload failed: " ++ reason⟩

/-- Python substring containment: isPrefixL needle hay at every suffix
position of the haystack. -/
def isPrefixL : List Char → List Char → Bool
  | [], _ => true
  | _ :: _, [] => false
  | a :: as, b :: bs => a = b && isPrefixL as bs

/-- The Python test sub in s over character lists. -/
def containsSub : List Char → List Char → Bool
  | [], needle => isPrefixL needle []
  | h :: t, needle => isPrefixL needle (h :: t) || containsSub t needle

/-- The Python test sub in s on strings. -/
def strContains (s sub : String) : Bool :=
  containsSub s.data sub.data

/-- The Python test c in s for a single character. -/
def containsChar (s : String) (c : Char) : Bool :=
  s.data.contains c

/-- The Python test len(s) > 1 and s[1] == c (Windows drive check). -/
def secondCharIs (s : String) (c : Char) : Bool :=
  match s.data with
  | _ :: b :: _ => b = c
  | _ => false

/-- Python str.startswith, spelled out over the character lists. -/
def strStartsWith (s p : String) : Bool :=
  isPrefixL p.data s.data

/-- Python slicing s[n:] over the character list. -/
def strDrop (s : String) (n : Nat) : String :=
  ⟨s.data.drop n⟩

/-- Python str.replace for a single character pattern. -/
def replaceChar (s : String) (a b : Char) : String :=
  ⟨s.data.map fun c => if c = a then b else c⟩

/-- The prefix-stripping loop shared by all three server modes
(server.py lines 292-294, 351-353, 418-420): strip one leading "./",
then one leading ".\". -/
def stripDotSlash (s : String) : String :=
  let s1 := if strStartsWith s "./" then strDrop s 2 else s
  if strStartsWith s1 ".\\" then strDrop s1 2 else s1

/-- Index of the last dot in a name, as Python str.rfind yields it. -/
def rfindDot (l : List Char) : Option Nat :=
  ((l.enum.filter (fun p => p.2 = '.')).map (fun p => p.1)).getLast?

/-- Python pathlib suffix of a bare name: the part from the last dot,
empty when the dot is leading, trailing or absent. -/
def suffixOf (name : String) : String :=
  match rfindDot name.data with
  | some i =>
    if 0 < i ∧ i < name.data.length - 1 then ⟨name.data.drop i⟩ else ""
  | none => ""

/-- Python pathlib stem of a bare name: the complement of suffixOf. -/
def stemOf (name : String) : String :=
  match rfindDot name.data with
  | some i =>
    if 0 < i ∧ i < name.data.length - 1 then ⟨name.data.take i⟩ else name
  | none => name

/-- Path-mode selection of the server (server.py constructor). -/
inductive PathMode where
  | sanitize
  | ignore
  | allowPaths
deriving DecidableEq, Repr

/-- The files (path to byte contents) and directories under the upload
root, keyed by joined path strings. -/
structure ServerFS where
  files : List (String × Bytes)
  dirs : List String
deriving DecidableEq, Repr

/-- Server state: the upload_sessions dictionary (client filename to
actual filename, in insertion order) and the filesystem. -/
structure ServerState where
  sessions : List (String × String)
  fs : ServerFS
deriving DecidableEq, Repr

/-- Server configuration: the upload root, the path mode, and the
filesystem path resolution (Path.resolve) kept abstract. -/
structure ServerConfig where
  uploadDir : String
  pathMode : PathMode
  resolve : String → String

/-- Dictionary lookup in the upload_sessions map. -/
def lookupSession : List (String × String) → String → Option String
  | [], _ => none
  | p :: rest, k => if p.1 = k then some p.2 else lookupSession rest k

/-- Path joining upload_dir / name. -/
def joinPath (d n : String) : String := d ++ "/" ++ n

/-- output_file.exists() restricted to regular files. -/
def fileExists (fs : ServerFS) (path : String) : Bool :=
  fs.files.any fun p => p.1 = path

/-- The defense-in-depth check of server.py lines 375-381 and 470-475:
str(output.resolve()).startswith(str(upload_dir.resolve())). -/
def insideRoot (cfg : ServerConfig) (outputPath : String) : Bool :=
  strStartsWith (cfg.resolve outputPath) (cfg.resolve cfg.uploadDir)

/-- The rejection predicate of sanitize mode (server.py lines 416-432):
separators are checked on the filename after prefix stripping, while
the traversal and absolute-path checks look at the original client
filename. -/
def sanitizeRejected (clientFilename : String) : Bool :=
  (containsChar (stripDotSlash clientFilename) '/'
      || containsChar (stripDotSlash clientFilename) '\\')
    || strContains clientFilename ".."
    || (strStartsWith clientFilename "/"
      || strStartsWith clientFilename "\\\\"
      || secondCharIs clientFilename ':')

/-- The rejection predicate of allow-paths mode (server.py lines
355-363), applied to the stripped filename. -/
def allowPathsRejected (cleaned : String) : Bool :=
  strContains cleaned ".."
    || (strStartsWith cleaned "/" || strStartsWith cleaned "\\\\"
      || secondCharIs cleaned ':')

/-- Errors raised by the path resolvers: ValueError becomes a 400
response, PermissionError a 403 (server.py lines 180-195). -/
inductive ServerError where
  | invalidFilename (msg : String)
  | accessDenied (msg : String)
deriving DecidableEq, Repr

/-- _handle_sanitize_mode (server.py lines 395-484): validate the
filename shape, extract the basename, reuse the session name or, on
the first chunk, disambiguate an existing file with a _timestamp
suffix and record the session, then re-verify that the resolved output
path stays inside the upload root.  The session entry persists even
when that last check fails, as in the Python code. -/
def handle_sanitize_mode (cfg : ServerConfig) (nowMs : Nat)
    (st : ServerState) (clientFilename : String) :
    ServerState × Except ServerError (String × String) :=
  if sanitizeRejected clientFilename then
    (st, .error (.invalidFilename
      "Filename must not contain path separators or traversal sequences"))
  else
    let actual0 := basename clientFilename
    if actual0 = "" ∨ actual0 = "." ∨ actual0 = ".." then
      (st, .error (.invalidFilename "Invalid filename"))
    else
      let p :=
        match lookupSession st.sessions clientFilename with
        | some name => (st, name)
        | none =>
          let a :=
            if fileExists st.fs (joinPath cfg.uploadDir actual0) then
              stemOf actual0 ++ "_" ++ toString nowMs ++ suffixOf actual0
            else actual0
          ({ st with sessions := st.sessions ++ [(clientFilename, a)] }, a)
      let outputFile := joinPath cfg.uploadDir p.2
      if insideRoot cfg outputFile then
        (p.1, .ok (outputFile, p.2))
      else
        (p.1, .error (.accessDenied "Access denied: invalid path"))

/-- _handle_ignore_mode (server.py lines 260-331): reuse the session
name when present; otherwise synthesize
timestamp_random_sanitizedname.ext from the stripped client path with
separators replaced by underscores and unsafe stem characters by
dashes, truncated to 255 characters preserving prefix and extension,
and record it in the session.  This mode never rejects. -/
def handle_ignore_mode (cfg : ServerConfig) (timestampMs : Nat)
    (randomHex : String) (st : ServerState) (clientFilename : String) :
    ServerState × (String × String) :=
  match lookupSession st.sessions clientFilename with
  | some name => (st, (joinPath cfg.uploadDir name, name))
  | none =>
    let fullPath := replaceChar
      (replaceChar (stripDotSlash clientFilename) '/' '_') '\\' '_' 
    let ext := suffixOf fullPath
    let nameWithoutExt := stemOf fullPath
    let safeName : String := ⟨nameWithoutExt.data.map fun c =>
      if c.isAlphanum || c = '.' || c = '_' || c = '-' then c else '-'⟩
    let prefixPart := toString timestampMs ++ "_" ++ randomHex ++ "_"
    let proposed := prefixPart ++ safeName ++ ext
    let actual :=
      if 255 < proposed.length then
        prefixPart
          ++ (⟨safeName.data.take (255 - prefixPart.length - ext.length)⟩ :
            String)
          ++ ext
      else proposed
    ({ st with sessions := st.sessions ++ [(clientFilename, actual)] },
      (joinPath cfg.uploadDir actual, actual))

/-- All the slash-terminated prefixes of a path: the directories that
output_file.parent.mkdir(parents=True) guarantees to exist. -/
def dirPrefixes (p : String) : List String :=
  (List.range p.data.length).filterMap fun i =>
    if p.data.getD i ' ' = '/' then some ⟨p.data.take i⟩ else none

/-- _handle_allow_paths_mode (server.py lines 333-393): strip the
leading dot prefix, reject traversal and absolute paths, normalize
backslashes, verify the resolved path is inside the upload root, then
create the intermediate directories. -/
def handle_allow_paths_mode (cfg : ServerConfig) (st : ServerState)
    (clientFilename : String) :
    ServerState × Except ServerError (String × String) :=
  let cleaned := stripDotSlash clientFilename
  if allowPathsRejected cleaned then
    (st, .error (.invalidFilename
      "Filename must not contain traversal sequences or absolute paths"))
  else
    let actual := replaceChar cleaned '\\' '/' 
    let outputFile := joinPath cfg.uploadDir actual
    if insideRoot cfg outputFile then
      ({ st with fs :=
          { st.fs with dirs := st.fs.dirs ++ dirPrefixes outputFile } },
        .ok (outputFile, actual))
    else
      (st, .error (.accessDenied "Access denied: invalid path"))

/-- _determine_output_path (server.py lines 229-258): dispatch on the
configured path mode. -/
def determine_output_path (cfg : ServerConfig) (timestampMs : Nat)
    (randomHex : String) (st : ServerState) (clientFilename : String) :
    ServerState × Except ServerError (String × String) :=
  match cfg.pathMode with
  | .ignore =>
    let p := handle_ignore_mode cfg timestampMs randomHex st clientFilename
    (p.1, .ok p.2)
  | .allowPaths => handle_allow_paths_mode cfg st clientFilename
  | .sanitize => handle_sanitize_mode cfg timestampMs st clientFilename

/-- HTTP result of handle_upload: 200 with the response fields, 400 for
a ValueError, 403 for a PermissionError. -/
inductive UploadHttpResponse where
  | ok (actualFilename : String) (chunkIndex : Nat) (clientFilename : String)
  | badRequest (message : String)
  | forbidden (message : String)
deriving DecidableEq, Repr

/-- Appending the chunk body to the output file, creating it when
absent (open in ab mode, server.py lines 202-203). -/
def appendFile (fs : ServerFS) (path : String) (body : Bytes) : ServerFS :=
  if fs.files.any fun p => p.1 = path then
    { fs with files := fs.files.map fun p =>
        if p.1 = path then (p.1, p.2 ++ body) else p }
  else
    { fs with files := fs.files ++ [(path, body)] }

/-- handle_upload (server.py lines 155-227): resolve the output path
(mutations to the session map persist even when resolution fails),
map ValueError to 400 and PermissionError to 403 before any byte is
written, otherwise append the body to the output file and answer 200
with the actual filename, chunk index and client filename. -/
def handle_upload (cfg : ServerConfig) (timestampMs : Nat)
    (randomHex : String) (st : ServerState) (clientFilename : String)
    (chunkIndex : Nat) (body : Bytes) : ServerState × UploadHttpResponse :=
  match determine_output_path cfg timestampMs randomHex st clientFilename with
  | (st2, .error (.invalidFilename msg)) => (st2, .badRequest msg)
  | (st2, .error (.accessDenied msg)) => (st2, .forbidden msg)
  | (st2, .ok pr) =>
    ({ st2 with fs := appendFile st2.fs pr.1 body },
      .ok pr.2 chunkIndex clientFilename)

end IndexedCP

namespace IndexedCP

theorem readChunks_nil (C : Nat) : readChunks C [] = [] := by
  rw [readChunks]
  simp

theorem readChunks_zero (bs : Bytes) : readChunks 0 bs = [] := by
  rw [readChunks]
  simp

theorem readChunks_cons (C : Nat) (bs : Bytes) (hC : C ≠ 0) (hbs : bs ≠ []) :
    readChunks C bs = bs.take C :: readChunks C (bs.drop C) := by
  rw [readChunks]
  simp [hC, hbs]

/-- Concatenating the windows restores the input. -/
theorem readChunks_flatten (C : Nat) (hC : C ≠ 0) :
    ∀ bs : Bytes, (readChunks C bs).flatten = bs := by
  intro bs
  induction bs using readChunks.induct C with
  | case1 bs h =>
    rcases h with h | h
    · exact absurd h hC
    · subst h
      simp [readChunks_nil]
  | case2 bs h ih =>
    push_neg at h
    rw [readChunks_cons C bs hC h.2]
    simp [ih]

/-- The number of windows is the ceiling of length / C. -/
theorem readChunks_length (C : Nat) (hC : C ≠ 0) :
    ∀ bs : Bytes, (readChunks C bs).length = (bs.length + C - 1) / C := by
  have hC0 : 0 < C := Nat.pos_of_ne_zero hC
  intro bs
  induction bs using readChunks.induct C with
  | case1 bs h =>
    rcases h with h | h
    · exact absurd h hC
    · subst h
      rw [readChunks_nil]
      simp only [List.length_nil]
      exact (Nat.div_eq_of_lt (by omega)).symm
  | case2 bs h ih =>
    push_neg at h
    rw [readChunks_cons C bs hC h.2]
    have hL : 0 < bs.length := List.length_pos.mpr h.2
    by_cases hle : bs.length ≤ C
    · have hdrop : bs.drop C = [] := List.drop_of_length_le hle
      rw [hdrop, readChunks_nil]
      have h1 : 1 * C ≤ bs.length + C - 1 := by omega
      have h2 : bs.length + C - 1 < (1 + 1) * C := by omega
      simp [Nat.div_eq_of_lt_le h1 h2]
    · push_neg at hle
      rw [List.length_cons, ih]
      rw [List.length_drop]
      have : bs.length - C + C - 1 = bs.length - 1 := by omega
      rw [this]
      have h3 : bs.length + C - 1 = bs.length - 1 + C := by omega
      rw [h3, Nat.add_div_right _ hC0]

/-- Window k is the C-byte slice starting at offset C * k. -/
theorem readChunks_getD (C : Nat) (hC : C ≠ 0) :
    ∀ (bs : Bytes) (k : Nat), k < (readChunks C bs).length →
      (readChunks C bs).getD k [] = (bs.drop (C * k)).take C := by
  intro bs
  induction bs using readChunks.induct C with
  | case1 bs h =>
    rcases h with h | h
    · exact absurd h hC
    · subst h
      intro k hk
      rw [readChunks_nil] at hk
      exact absurd hk (by simp)
  | case2 bs h ih =>
    push_neg at h
    intro k hk
    rw [readChunks_cons C bs hC h.2] at hk ⊢
    match k with
    | 0 => simp
    | Nat.succ k =>
      simp only [List.getD_cons_succ]
      rw [ih k (by simpa using hk)]
      rw [List.drop_drop, show C + C * k = C * Nat.succ k from by
        rw [Nat.mul_succ]; omega]

/-- Full windows have size C, the final window has size S mod C
(or C when C divides S). -/
theorem readChunks_size (C : Nat) (hC : C ≠ 0) (bs : Bytes) (k : Nat)
    (hk : k < (readChunks C bs).length) :
    ((readChunks C bs).getD k []).length =
      if k + 1 < (readChunks C bs).length then C
      else if bs.length % C = 0 then C else bs.length % C := by
  have hC0 : 0 < C := Nat.pos_of_ne_zero hC
  have hnval : (readChunks C bs).length = (bs.length + C - 1) / C :=
    readChunks_length C hC bs
  rw [readChunks_getD C hC bs k hk]
  have hlen : ((bs.drop (C * k)).take C).length = min C (bs.length - C * k) := by
    simp [List.length_take, List.length_drop]
  rw [hlen]
  by_cases hlt : k + 1 < (readChunks C bs).length
  · have h1 : k + 2 ≤ (bs.length + C - 1) / C := by omega
    have h2 : (k + 2) * C ≤ bs.length + C - 1 :=
      (Nat.le_div_iff_mul_le hC0).mp h1
    rw [Nat.add_mul] at h2
    have hge : C ≤ bs.length - C * k := by
      rw [Nat.mul_comm C k]
      obtain ⟨A, hA⟩ : ∃ A, k * C = A := ⟨_, rfl⟩
      rw [hA] at h2 ⊢
      omega
    rw [if_pos hlt, Nat.min_eq_left hge]
  · have hk1 : k + 1 = (readChunks C bs).length := by omega
    have hub : bs.length + C - 1 < (k + 1 + 1) * C := by
      apply (Nat.div_lt_iff_lt_mul hC0).mp
      omega
    have hlb : (k + 1) * C ≤ bs.length + C - 1 :=
      (Nat.le_div_iff_mul_le hC0).mp (by omega)
    rw [Nat.add_mul, Nat.add_mul] at hub
    rw [Nat.add_mul] at hlb
    have hck : C * k = k * C := Nat.mul_comm C k
    obtain ⟨A, hA⟩ : ∃ A, k * C = A := ⟨_, rfl⟩
    rw [hA] at hub hlb
    rw [hck, hA]
    have hS : A < bs.length := by omega
    have hrC : bs.length - A ≤ C := by omega
    have hr0 : 0 < bs.length - A := by omega
    rw [Nat.min_eq_right hrC, if_neg hlt]
    have hmod : bs.length % C = (bs.length - A) % C := by
      conv_lhs => rw [show bs.length = A + (bs.length - A) from by omega]
      rw [← hA, Nat.mul_comm k C, Nat.mul_add_mod]
    by_cases hz : bs.length % C = 0
    · rw [if_pos hz]
      rw [hmod] at hz
      rcases Nat.lt_or_ge (bs.length - A) C with hlt2 | hge2
      · rw [Nat.mod_eq_of_lt hlt2] at hz
        omega
      · omega
    · rw [if_neg hz]
      have hrltC : bs.length - A < C := by
        rcases Nat.lt_or_ge (bs.length - A) C with hlt2 | hge2
        · exact hlt2
        · exfalso
          have : bs.length - A = C := by omega
          rw [hmod, this, Nat.mod_self] at hz
          exact hz rfl
      rw [hmod, Nat.mod_eq_of_lt hrltC]

theorem add_file_map_data (cfg : ClientConfig) (filepath : String)
    (contents : Bytes) (now : ℚ) :
    (add_file cfg filepath contents now).map (fun r => r.data)
      = readChunks cfg.chunkSize contents := by
  rw [add_file, List.map_map]
  have : ((fun r : ChunkRecord => r.data) ∘ fun p : Nat × Bytes =>
      ({ id := filepath ++ "-" ++ toString p.1, fileName := filepath,
         chunkIndex := p.1, data := p.2,
         retryMetadata := ⟨0, none, now, []⟩ } : ChunkRecord))
      = Prod.snd := rfl
  rw [this, List.enum_map_snd]

theorem add_file_length (cfg : ClientConfig) (filepath : String)
    (contents : Bytes) (now : ℚ) :
    (add_file cfg filepath contents now).length
      = (readChunks cfg.chunkSize contents).length := by
  simp [add_file]

theorem add_file_map_index (cfg : ClientConfig) (filepath : String)
    (contents : Bytes) (now : ℚ) :
    (add_file cfg filepath contents now).map (fun r => r.chunkIndex)
      = List.range (readChunks cfg.chunkSize contents).length := by
  rw [add_file, List.map_map]
  have : ((fun r : ChunkRecord => r.chunkIndex) ∘ fun p : Nat × Bytes =>
      ({ id := filepath ++ "-" ++ toString p.1, fileName := filepath,
         chunkIndex := p.1, data := p.2,
         retryMetadata := ⟨0, none, now, []⟩ } : ChunkRecord))
      = Prod.fst := rfl
  rw [this, List.enum_map_fst]

/-- C1: chunking round-trip.  For a file of S bytes and chunk size
C > 0, add_file returns ceil(S/C) and creates that many records; their
chunkIndex values are exactly 0..n-1 in ascending order, every data
slice has size C except the last, whose size is S mod C (or C when C
divides S); concatenating the slices in chunkIndex order reproduces the
file; a 0-byte file creates no records; every record starts with fresh
retry metadata. -/
theorem C1_chunking_roundtrip (cfg : ClientConfig) (filepath : String)
    (contents : Bytes) (now : ℚ) (hC : cfg.chunkSize ≠ 0) :
    add_file_count cfg filepath contents now
        = (contents.length + cfg.chunkSize - 1) / cfg.chunkSize
    ∧ (contents = [] → add_file cfg filepath contents now = [])
    ∧ (add_file cfg filepath contents now).map (fun r => r.chunkIndex)
        = List.range (add_file_count cfg filepath contents now)
    ∧ ((add_file cfg filepath contents now).map (fun r => r.data)).flatten
        = contents
    ∧ (∀ k, k < add_file_count cfg filepath contents now →
        (((add_file cfg filepath contents now).map (fun r => r.data)).getD
            k []).length =
          if k + 1 < add_file_count cfg filepath contents now
          then cfg.chunkSize
          else if contents.length % cfg.chunkSize = 0 then cfg.chunkSize
          else contents.length % cfg.chunkSize)
    ∧ (∀ r ∈ add_file cfg filepath contents now,
        r.retryMetadata = ⟨0, none, now, []⟩) := by
  have hcount : add_file_count cfg filepath contents now
      = (readChunks cfg.chunkSize contents).length := by
    rw [add_file_count, add_file_length]
  refine ⟨?_, ?_, ?_, ?_, ?_, ?_⟩
  · rw [hcount, readChunks_length cfg.chunkSize hC]
  · intro h
    subst h
    simp [add_file, readChunks_nil]
  · rw [hcount, add_file_map_index]
  · rw [add_file_map_data, readChunks_flatten cfg.chunkSize hC]
  · intro k hk
    rw [hcount] at hk ⊢
    rw [add_file_map_data]
    exact readChunks_size cfg.chunkSize hC contents k hk
  · intro r hr
    rw [add_file] at hr
    obtain ⟨p, _, hp⟩ := List.mem_map.mp hr
    rw [← hp]

/-- Witness for C1 at a concrete input: a 10-byte file with chunk size
4 yields 3 chunks of sizes 4, 4, 2 whose concatenation is the file. -/
theorem C1_chunking_roundtrip_witness :
    (4 : Nat) ≠ 0 ∧
    (add_file_count ⟨4, none, 1, 60, 2⟩ "f"
        [0, 1, 2, 3, 4, 5, 6, 7, 8, 9] 0
        = (([0, 1, 2, 3, 4, 5, 6, 7, 8, 9] : Bytes).length + 4 - 1) / 4
    ∧ (([0, 1, 2, 3, 4, 5, 6, 7, 8, 9] : Bytes) = [] →
        add_file ⟨4, none, 1, 60, 2⟩ "f" [0, 1, 2, 3, 4, 5, 6, 7, 8, 9] 0 = [])
    ∧ (add_file ⟨4, none, 1, 60, 2⟩ "f" [0, 1, 2, 3, 4, 5, 6, 7, 8, 9] 0).map
          (fun r => r.chunkIndex)
        = List.range (add_file_count ⟨4, none, 1, 60, 2⟩ "f"
            [0, 1, 2, 3, 4, 5, 6, 7, 8, 9] 0)
    ∧ ((add_file ⟨4, none, 1, 60, 2⟩ "f" [0, 1, 2, 3, 4, 5, 6, 7, 8, 9] 0).map
          (fun r => r.data)).flatten = [0, 1, 2, 3, 4, 5, 6, 7, 8, 9]
    ∧ (∀ k, k < add_file_count ⟨4, none, 1, 60, 2⟩ "f"
          [0, 1, 2, 3, 4, 5, 6, 7, 8, 9] 0 →
        (((add_file ⟨4, none, 1, 60, 2⟩ "f"
            [0, 1, 2, 3, 4, 5, 6, 7, 8, 9] 0).map
              (fun r => r.data)).getD k []).length =
          if k + 1 < add_file_count ⟨4, none, 1, 60, 2⟩ "f"
              [0, 1, 2, 3, 4, 5, 6, 7, 8, 9] 0
          then 4
          else if ([0, 1, 2, 3, 4, 5, 6, 7, 8, 9] : Bytes).length % 4 = 0
          then 4
          else ([0, 1, 2, 3, 4, 5, 6, 7, 8, 9] : Bytes).length % 4)
    ∧ (∀ r ∈ add_file ⟨4, none, 1, 60, 2⟩ "f" [0, 1, 2, 3, 4, 5, 6, 7, 8, 9] 0,
        r.retryMetadata = ⟨0, none, 0, []⟩)) :=
  ⟨by decide,
   C1_chunking_roundtrip ⟨4, none, 1, 60, 2⟩ "f"
     [0, 1, 2, 3, 4, 5, 6, 7, 8, 9] 0 (by decide)⟩


theorem mem_deleteRecord {store : Store} {id : String} {r : ChunkRecord} :
    r ∈ deleteRecord store id ↔ r ∈ store ∧ r.id ≠ id := by
  simp [deleteRecord]

theorem mem_saveRecord_of_ne {store : Store} {rec r : ChunkRecord}
    (hr : r ∈ store) (hne : r.id ≠ rec.id) : r ∈ saveRecord store rec := by
  rw [saveRecord]
  by_cases h : store.any fun x => x.id = rec.id
  · rw [if_pos h]
    refine List.mem_map.mpr ⟨r, hr, ?_⟩
    rw [if_neg hne]
  · rw [if_neg h]
    exact List.mem_append_left _ hr

theorem mem_saveRecord_self (store : Store) (rec : ChunkRecord) :
    rec ∈ saveRecord store rec := by
  rw [saveRecord]
  by_cases h : store.any fun x => x.id = rec.id
  · rw [if_pos h]
    obtain ⟨x, hx, hxid⟩ := List.any_eq_true.mp h
    refine List.mem_map.mpr ⟨x, hx, ?_⟩
    rw [if_pos (of_decide_eq_true hxid)]
  · rw [if_neg h]
    exact List.mem_append_right _ (by simp)

theorem mem_of_mem_saveRecord {store : Store} {rec r : ChunkRecord}
    (h : r ∈ saveRecord store rec) : r = rec ∨ r ∈ store := by
  rw [saveRecord] at h
  by_cases hc : store.any fun x => x.id = rec.id
  · rw [if_pos hc] at h
    obtain ⟨x, hx, hxr⟩ := List.mem_map.mp h
    by_cases hid : x.id = rec.id
    · rw [if_pos hid] at hxr
      exact Or.inl hxr.symm
    · rw [if_neg hid] at hxr
      exact Or.inr (hxr ▸ hx)
  · rw [if_neg hc] at h
    rcases List.mem_append.mp h with h | h
    · exact Or.inr h
    · exact Or.inl (by simpa using h)

theorem id_mem_saveRecord {store : Store} {rec : ChunkRecord} {i : String}
    (h : i ∈ store.map fun r => r.id) :
    i ∈ (saveRecord store rec).map fun r => r.id := by
  obtain ⟨r, hr, hri⟩ := List.mem_map.mp h
  by_cases hne : r.id = rec.id
  · exact List.mem_map.mpr ⟨rec, mem_saveRecord_self store rec, by rw [← hri, hne]⟩
  · exact List.mem_map.mpr ⟨r, mem_saveRecord_of_ne hr hne, hri⟩

theorem id_notMem_saveRecord {store : Store} {rec : ChunkRecord} {i : String}
    (h : i ∉ store.map fun r => r.id) (hne : i ≠ rec.id) :
    i ∉ (saveRecord store rec).map fun r => r.id := by
  intro hmem
  obtain ⟨r, hr, hri⟩ := List.mem_map.mp hmem
  rcases mem_of_mem_saveRecord hr with h1 | h1
  · exact hne (by rw [← hri, h1])
  · exact h (List.mem_map.mpr ⟨r, h1, hri⟩)

theorem id_notMem_deleteRecord (store : Store) (i : String) :
    i ∉ (deleteRecord store i).map fun r => r.id := by
  intro hmem
  obtain ⟨r, hr, hri⟩ := List.mem_map.mp hmem
  exact (mem_deleteRecord.mp hr).2 hri

theorem insertChunk_perm (l : List ChunkRecord) (c : ChunkRecord) :
    List.Perm (insertChunk l c) (c :: l) := by
  induction l with
  | nil => simp [insertChunk]
  | cons d ds ih =>
    rw [insertChunk]
    by_cases h : d.chunkIndex <= c.chunkIndex
    · rw [if_pos h]
      exact (List.Perm.cons d ih).trans (List.Perm.swap c d ds)
    · rw [if_neg h]

theorem sortChunks_perm (cs : List ChunkRecord) :
    List.Perm (sortChunks cs) cs := by
  suffices h : forall acc : List ChunkRecord,
      List.Perm (cs.foldl insertChunk acc) (acc ++ cs) by
    simpa [sortChunks] using h []
  induction cs with
  | nil => intro acc; simp
  | cons c cs ih =>
    intro acc
    rw [List.foldl_cons]
    refine (ih (insertChunk acc c)).trans ?_
    refine (List.Perm.append_right cs (insertChunk_perm acc c)).trans ?_
    exact (List.perm_middle.symm :
      List.Perm (c :: (acc ++ cs)) (acc ++ c :: cs))

theorem processChunk_skip (cfg : ClientConfig) (tr : Transport)
    (fn : String) (now : ℚ) (st : GroupPassState) (c : ChunkRecord)
    (h : eligible cfg now c = false) :
    processChunk cfg tr fn now st c = st := by
  rw [processChunk]
  simp [h]

theorem processChunk_ok (cfg : ClientConfig) (tr : Transport)
    (fn : String) (now : ℚ) (st : GroupPassState) (c : ChunkRecord)
    (resp : Option ChunkResponse)
    (he : eligible cfg now c = true)
    (htr : tr fn c.chunkIndex = .ok resp) :
    processChunk cfg tr fn now st c =
      { store := deleteRecord st.store c.id
        serverFilename :=
          match st.serverFilename with
          | some s => some s
          | none => responseActual resp
        errorsCount := st.errorsCount
        successCount := st.successCount + 1
        attempts := st.attempts ++ [c.chunkIndex] } := by
  rw [processChunk]
  simp only [he, not_true_eq_false, if_false, htr]

theorem processChunk_err (cfg : ClientConfig) (tr : Transport)
    (fn : String) (now : ℚ) (st : GroupPassState) (c : ChunkRecord)
    (msg : String)
    (he : eligible cfg now c = true)
    (htr : tr fn c.chunkIndex = .err msg) :
    processChunk cfg tr fn now st c =
      { store := saveRecord st.store
          { c with retryMetadata :=
              { retryCount := c.retryMetadata.retryCount + 1
                lastAttempt := some now
                nextRetry := now +
                  min (cfg.initialRetryDelay
                        * cfg.retryMultiplier ^ c.retryMetadata.retryCount)
                    cfg.maxRetryDelay * 1000
                errors := trimErrors
                  (c.retryMetadata.errors ++ [⟨now, msg⟩]) } }
        serverFilename := st.serverFilename
        errorsCount := st.errorsCount + 1
        successCount := st.successCount
        attempts := st.attempts ++ [c.chunkIndex] } := by
  rw [processChunk]
  simp only [he, not_true_eq_false, if_false, htr, Nat.add_sub_cancel]

theorem foldl_attempts (cfg : ClientConfig) (tr : Transport)
    (fn : String) (now : ℚ) (cs : List ChunkRecord) :
    ∀ st : GroupPassState,
      (cs.foldl (processChunk cfg tr fn now) st).attempts =
        st.attempts ++ (cs.filter (eligible cfg now)).map
          (fun c => c.chunkIndex) := by
  induction cs with
  | nil => intro st; simp
  | cons c cs ih =>
    intro st
    rw [List.foldl_cons, ih]
    by_cases he : eligible cfg now c = true
    · rcases htr : tr fn c.chunkIndex with resp | msg
      · rw [processChunk_ok cfg tr fn now st c resp he htr]
        simp [List.filter_cons, he]
      · rw [processChunk_err cfg tr fn now st c msg he htr]
        simp [List.filter_cons, he]
    · rw [processChunk_skip cfg tr fn now st c (by simpa using he)]
      have : eligible cfg now c = false := by simpa using he
      simp [List.filter_cons, this]

theorem foldl_errorsCount (cfg : ClientConfig) (tr : Transport)
    (fn : String) (now : ℚ) (cs : List ChunkRecord) :
    ∀ st : GroupPassState,
      (cs.foldl (processChunk cfg tr fn now) st).errorsCount =
        st.errorsCount + (cs.filter (chunkFails cfg tr fn now)).length := by
  induction cs with
  | nil => intro st; simp
  | cons c cs ih =>
    intro st
    rw [List.foldl_cons, ih]
    by_cases he : eligible cfg now c = true
    · rcases htr : tr fn c.chunkIndex with resp | msg
      · rw [processChunk_ok cfg tr fn now st c resp he htr]
        have hcf : chunkFails cfg tr fn now c = false := by
          simp [chunkFails, he, htr]
        simp [List.filter_cons, hcf]
      · rw [processChunk_err cfg tr fn now st c msg he htr]
        have hcf : chunkFails cfg tr fn now c = true := by
          simp [chunkFails, he, htr]
        simp only [List.filter_cons, hcf, if_true, List.length_cons]
        omega
    · have he2 : eligible cfg now c = false := by simpa using he
      rw [processChunk_skip cfg tr fn now st c he2]
      have hcf : chunkFails cfg tr fn now c = false := by
        simp [chunkFails, he2]
      simp [List.filter_cons, hcf]

theorem foldl_store_untouched (cfg : ClientConfig) (tr : Transport)
    (fn : String) (now : ℚ) (cs : List ChunkRecord) :
    ∀ st : GroupPassState, ∀ r : ChunkRecord, r ∈ st.store →
      (∀ c ∈ cs, eligible cfg now c = true → c.id ≠ r.id) →
      r ∈ (cs.foldl (processChunk cfg tr fn now) st).store := by
  induction cs with
  | nil => intro st r hr _; simpa using hr
  | cons c cs ih =>
    intro st r hr hno
    rw [List.foldl_cons]
    refine ih _ r ?_ fun c2 hc2 he2 => hno c2 (by simp [hc2]) he2
    by_cases he : eligible cfg now c = true
    · have hne : c.id ≠ r.id := hno c (by simp) he
      rcases htr : tr fn c.chunkIndex with resp | msg
      · rw [processChunk_ok cfg tr fn now st c resp he htr]
        exact mem_deleteRecord.mpr ⟨hr, fun h => hne h.symm⟩
      · rw [processChunk_err cfg tr fn now st c msg he htr]
        exact mem_saveRecord_of_ne hr fun h => hne (h.symm)
    · rw [processChunk_skip cfg tr fn now st c (by simpa using he)]
      exact hr

theorem foldl_id_stays_out (cfg : ClientConfig) (tr : Transport)
    (fn : String) (now : ℚ) (cs : List ChunkRecord) :
    ∀ st : GroupPassState, ∀ i : String,
      i ∉ st.store.map (fun r => r.id) →
      (∀ c ∈ cs, c.id ≠ i) →
      i ∉ (cs.foldl (processChunk cfg tr fn now) st).store.map
        (fun r => r.id) := by
  induction cs with
  | nil => intro st i hi _; simpa using hi
  | cons c cs ih =>
    intro st i hi hno
    rw [List.foldl_cons]
    refine ih _ i ?_ fun c2 hc2 => hno c2 (by simp [hc2])
    by_cases he : eligible cfg now c = true
    · rcases htr : tr fn c.chunkIndex with resp | msg
      · rw [processChunk_ok cfg tr fn now st c resp he htr]
        intro hmem
        obtain ⟨r, hr, hri⟩ := List.mem_map.mp hmem
        exact hi (List.mem_map.mpr ⟨r, (mem_deleteRecord.mp hr).1, hri⟩)
      · rw [processChunk_err cfg tr fn now st c msg he htr]
        exact id_notMem_saveRecord hi fun h => hno c (by simp) h.symm
    · rw [processChunk_skip cfg tr fn now st c (by simpa using he)]
      exact hi

theorem foldl_delete_implies_ok (cfg : ClientConfig) (tr : Transport)
    (fn : String) (now : ℚ) (cs : List ChunkRecord) :
    ∀ st : GroupPassState, ∀ i : String,
      i ∈ st.store.map (fun r => r.id) →
      i ∉ (cs.foldl (processChunk cfg tr fn now) st).store.map
        (fun r => r.id) →
      ∃ c ∈ cs, eligible cfg now c = true ∧ c.id = i ∧
        ∃ resp, tr fn c.chunkIndex = .ok resp := by
  induction cs with
  | nil =>
    intro st i hi hout
    exact absurd hi (by simpa using hout)
  | cons c cs ih =>
    intro st i hi hout
    rw [List.foldl_cons] at hout
    by_cases hkeep : i ∈ (processChunk cfg tr fn now st c).store.map
        (fun r => r.id)
    · obtain ⟨c2, hc2, h1, h2, h3⟩ := ih _ i hkeep hout
      exact ⟨c2, by simp [hc2], h1, h2, h3⟩
    · by_cases he : eligible cfg now c = true
      · rcases htr : tr fn c.chunkIndex with resp | msg
        · by_cases hci : c.id = i
          · exact ⟨c, by simp, he, hci, resp, htr⟩
          · exfalso
            rw [processChunk_ok cfg tr fn now st c resp he htr] at hkeep
            apply hkeep
            obtain ⟨r, hr, hri⟩ := List.mem_map.mp hi
            refine List.mem_map.mpr ⟨r, mem_deleteRecord.mpr ⟨hr, ?_⟩, hri⟩
            rw [hri]
            exact fun h => hci h.symm
        · exfalso
          rw [processChunk_err cfg tr fn now st c msg he htr] at hkeep
          exact hkeep (id_mem_saveRecord hi)
      · exfalso
        rw [processChunk_skip cfg tr fn now st c (by simpa using he)] at hkeep
        exact hkeep hi

theorem foldl_ok_removes (cfg : ClientConfig) (tr : Transport)
    (fn : String) (now : ℚ) (cs : List ChunkRecord)
    (hnd : (cs.map fun r => r.id).Nodup) (c : ChunkRecord) (hc : c ∈ cs)
    (he : eligible cfg now c = true) (resp : Option ChunkResponse)
    (htr : tr fn c.chunkIndex = .ok resp) (st : GroupPassState) :
    c.id ∉ (cs.foldl (processChunk cfg tr fn now) st).store.map
      (fun r => r.id) := by
  obtain ⟨xs, ys, rfl⟩ := List.mem_iff_append.mp hc
  rw [List.foldl_append, List.foldl_cons]
  have hys : ∀ c2 ∈ ys, c2.id ≠ c.id := by
    intro c2 hc2 heq
    rw [List.map_append, List.map_cons] at hnd
    have h2 := (List.nodup_append.mp hnd).2.1
    rw [List.nodup_cons] at h2
    exact h2.1 (heq ▸ List.mem_map.mpr ⟨c2, hc2, rfl⟩)
  refine foldl_id_stays_out cfg tr fn now ys _ c.id ?_ hys
  rw [processChunk_ok cfg tr fn now _ c resp he htr]
  exact id_notMem_deleteRecord _ c.id

theorem foldl_err_persists (cfg : ClientConfig) (tr : Transport)
    (fn : String) (now : ℚ) (cs : List ChunkRecord)
    (hnd : (cs.map fun r => r.id).Nodup) (c : ChunkRecord) (hc : c ∈ cs)
    (he : eligible cfg now c = true) (msg : String)
    (htr : tr fn c.chunkIndex = .err msg) (st : GroupPassState) :
    ({ c with retryMetadata :=
        { retryCount := c.retryMetadata.retryCount + 1
          lastAttempt := some now
          nextRetry := now +
            min (cfg.initialRetryDelay
                  * cfg.retryMultiplier ^ c.retryMetadata.retryCount)
              cfg.maxRetryDelay * 1000
          errors := trimErrors
            (c.retryMetadata.errors ++ [⟨now, msg⟩]) } } : ChunkRecord)
      ∈ (cs.foldl (processChunk cfg tr fn now) st).store := by
  obtain ⟨xs, ys, rfl⟩ := List.mem_iff_append.mp hc
  rw [List.foldl_append, List.foldl_cons]
  have hys : ∀ c2 ∈ ys, c2.id ≠ c.id := by
    intro c2 hc2 heq
    rw [List.map_append, List.map_cons] at hnd
    have h2 := (List.nodup_append.mp hnd).2.1
    rw [List.nodup_cons] at h2
    exact h2.1 (heq ▸ List.mem_map.mpr ⟨c2, hc2, rfl⟩)
  refine foldl_store_untouched cfg tr fn now ys _ _ ?_
    fun c2 hc2 _ => hys c2 hc2
  rw [processChunk_err cfg tr fn now _ c msg he htr]
  exact mem_saveRecord_self _ _

theorem mem_groupOf {store : Store} {fn : String} {c : ChunkRecord} :
    c ∈ groupOf store fn ↔ c ∈ store ∧ c.fileName = fn := by
  simp [groupOf]

theorem groupOf_ids_nodup {store : Store} {fn : String}
    (h : (store.map fun r => r.id).Nodup) :
    ((groupOf store fn).map fun r => r.id).Nodup :=
  ((List.filter_sublist store).map fun r => r.id).nodup h

theorem sortChunks_ids_nodup {cs : List ChunkRecord}
    (h : (cs.map fun r => r.id).Nodup) :
    ((sortChunks cs).map fun r => r.id).Nodup :=
  (((sortChunks_perm cs).map fun r => r.id).nodup_iff).mpr h

theorem upload_file_chunks_state (cfg : ClientConfig) (tr : Transport)
    (fn : String) (chunks : List ChunkRecord) (now : ℚ) (store : Store) :
    (upload_file_chunks cfg tr fn chunks now store).1 =
      (sortChunks chunks).foldl (processChunk cfg tr fn now)
        { store := store, serverFilename := none, errorsCount := 0,
          successCount := 0, attempts := [] } := by
  rw [upload_file_chunks]
  split <;> rfl

theorem upload_file_chunks_untouched (cfg : ClientConfig) (tr : Transport)
    (fn : String) (chunks : List ChunkRecord) (now : ℚ) (store : Store)
    (r : ChunkRecord) (hr : r ∈ store)
    (hno : ∀ c ∈ chunks, eligible cfg now c = true → c.id ≠ r.id) :
    r ∈ (upload_file_chunks cfg tr fn chunks now store).1.store := by
  rw [upload_file_chunks_state]
  exact foldl_store_untouched cfg tr fn now (sortChunks chunks) _ r hr
    fun c hc he => hno c ((sortChunks_perm chunks).mem_iff.mp hc) he

theorem upload_file_chunks_delete_implies_ok (cfg : ClientConfig)
    (tr : Transport) (fn : String) (chunks : List ChunkRecord) (now : ℚ)
    (store : Store) (i : String)
    (hi : i ∈ store.map fun r => r.id)
    (hout : i ∉ (upload_file_chunks cfg tr fn chunks now store).1.store.map
      fun r => r.id) :
    ∃ c ∈ chunks, eligible cfg now c = true ∧ c.id = i ∧
      ∃ resp, tr fn c.chunkIndex = .ok resp := by
  rw [upload_file_chunks_state] at hout
  obtain ⟨c, hc, h⟩ :=
    foldl_delete_implies_ok cfg tr fn now (sortChunks chunks) _ i hi hout
  exact ⟨c, (sortChunks_perm chunks).mem_iff.mp hc, h⟩

theorem upload_file_chunks_err_persists (cfg : ClientConfig)
    (tr : Transport) (fn : String) (chunks : List ChunkRecord) (now : ℚ)
    (store : Store) (c : ChunkRecord) (msg : String)
    (hnd : (chunks.map fun r => r.id).Nodup) (hc : c ∈ chunks)
    (he : eligible cfg now c = true)
    (htr : tr fn c.chunkIndex = .err msg) :
    failureUpdate cfg now msg c
      ∈ (upload_file_chunks cfg tr fn chunks now store).1.store := by
  rw [upload_file_chunks_state]
  exact foldl_err_persists cfg tr fn now (sortChunks chunks)
    (sortChunks_ids_nodup hnd) c ((sortChunks_perm chunks).mem_iff.mpr hc)
    he msg htr _

theorem fileNamesOf_nodup (store : Store) : (fileNamesOf store).Nodup := by
  suffices h : ∀ acc : List String, acc.Nodup →
      (store.foldl (fun acc r =>
        if r.fileName ∈ acc then acc else acc ++ [r.fileName]) acc).Nodup by
    exact h [] List.nodup_nil
  induction store with
  | nil => intro acc h; simpa using h
  | cons r rs ih =>
    intro acc h
    rw [List.foldl_cons]
    by_cases hmem : r.fileName ∈ acc
    · rw [if_pos hmem]
      exact ih acc h
    · rw [if_neg hmem]
      refine ih _ ?_
      simpa [List.nodup_append] using ⟨h, hmem⟩

theorem uploadNames_cons_err (cfg : ClientConfig) (tr : Transport)
    (nowAt : String → ℚ) (store₀ : Store) (fn : String)
    (rest : List String) (store : Store) (att : List (String × Nat))
    (acc : List (String × String)) (msg : String)
    (h : (upload_file_chunks cfg tr fn (groupOf store₀ fn) (nowAt fn)
      store).2 = .error msg) :
    uploadNames cfg tr nowAt store₀ (fn :: rest) store att acc =
      ⟨(upload_file_chunks cfg tr fn (groupOf store₀ fn) (nowAt fn)
          store).1.store,
        att ++ (upload_file_chunks cfg tr fn (groupOf store₀ fn)
          (nowAt fn) store).1.attempts.map (fun i => (fn, i)),
        .error msg⟩ := by
  rw [uploadNames]
  split
  · rename_i msg2 heq
    rw [h] at heq
    cases heq
    rfl
  · rename_i p heq
    rw [h] at heq
    cases heq

theorem uploadNames_cons_ok (cfg : ClientConfig) (tr : Transport)
    (nowAt : String → ℚ) (store₀ : Store) (fn : String)
    (rest : List String) (store : Store) (att : List (String × Nat))
    (acc : List (String × String)) (p : String × String)
    (h : (upload_file_chunks cfg tr fn (groupOf store₀ fn) (nowAt fn)
      store).2 = .ok p) :
    uploadNames cfg tr nowAt store₀ (fn :: rest) store att acc =
      uploadNames cfg tr nowAt store₀ rest
        (upload_file_chunks cfg tr fn (groupOf store₀ fn) (nowAt fn)
          store).1.store
        (att ++ (upload_file_chunks cfg tr fn (groupOf store₀ fn)
          (nowAt fn) store).1.attempts.map (fun i => (fn, i)))
        (acc ++ [p]) := by
  rw [uploadNames]
  split
  · rename_i msg2 heq
    rw [h] at heq
    cases heq
  · rename_i p2 heq
    rw [h] at heq
    cases heq
    rfl

theorem uploadNames_untouched (cfg : ClientConfig) (tr : Transport)
    (nowAt : String → ℚ) (store₀ : Store) :
    ∀ (names : List String) (store : Store) (att : List (String × Nat))
      (acc : List (String × String)) (r2 : ChunkRecord),
      r2 ∈ store →
      (∀ fnm ∈ names, ∀ c ∈ groupOf store₀ fnm,
        eligible cfg (nowAt fnm) c = true → c.id ≠ r2.id) →
      r2 ∈ (uploadNames cfg tr nowAt store₀ names store att acc).store := by
  intro names
  induction names with
  | nil =>
    intro store att acc r2 hr2 _
    rw [uploadNames]
    exact hr2
  | cons fn rest ih =>
    intro store att acc r2 hr2 hno
    have hgrp : r2 ∈ (upload_file_chunks cfg tr fn (groupOf store₀ fn)
        (nowAt fn) store).1.store :=
      upload_file_chunks_untouched cfg tr fn (groupOf store₀ fn)
        (nowAt fn) store r2 hr2
        (fun c hc he => hno fn (by simp) c hc he)
    rcases hres : (upload_file_chunks cfg tr fn (groupOf store₀ fn)
        (nowAt fn) store).2 with msg | p
    · rw [uploadNames_cons_err cfg tr nowAt store₀ fn rest store att acc
        msg hres]
      exact hgrp
    · rw [uploadNames_cons_ok cfg tr nowAt store₀ fn rest store att acc
        p hres]
      exact ih _ _ _ r2 hgrp
        (fun fnm hm c hc he => hno fnm (by simp [hm]) c hc he)

theorem uploadNames_delete_implies_ok (cfg : ClientConfig) (tr : Transport)
    (nowAt : String → ℚ) (store₀ : Store) :
    ∀ (names : List String) (store : Store) (att : List (String × Nat))
      (acc : List (String × String)) (i : String),
      i ∈ store.map (fun r => r.id) →
      i ∉ (uploadNames cfg tr nowAt store₀ names store att acc).store.map
        (fun r => r.id) →
      ∃ fnm ∈ names, ∃ c ∈ groupOf store₀ fnm,
        eligible cfg (nowAt fnm) c = true ∧ c.id = i ∧
        ∃ resp, tr fnm c.chunkIndex = .ok resp := by
  intro names
  induction names with
  | nil =>
    intro store att acc i hi hout
    rw [uploadNames] at hout
    exact absurd hi hout
  | cons fn rest ih =>
    intro store att acc i hi hout
    rcases hres : (upload_file_chunks cfg tr fn (groupOf store₀ fn)
        (nowAt fn) store).2 with msg | p
    · rw [uploadNames_cons_err cfg tr nowAt store₀ fn rest store att acc
        msg hres] at hout
      obtain ⟨c, hc, h⟩ := upload_file_chunks_delete_implies_ok cfg tr fn
        (groupOf store₀ fn) (nowAt fn) store i hi hout
      exact ⟨fn, by simp, c, hc, h⟩
    · rw [uploadNames_cons_ok cfg tr nowAt store₀ fn rest store att acc
        p hres] at hout
      by_cases hkeep : i ∈ (upload_file_chunks cfg tr fn (groupOf store₀ fn)
          (nowAt fn) store).1.store.map (fun r => r.id)
      · obtain ⟨fnm, hm, c, hc, h⟩ := ih _ _ _ i hkeep hout
        exact ⟨fnm, by simp [hm], c, hc, h⟩
      · obtain ⟨c, hc, h⟩ := upload_file_chunks_delete_implies_ok cfg tr fn
          (groupOf store₀ fn) (nowAt fn) store i hi hkeep
        exact ⟨fn, by simp, c, hc, h⟩

theorem uploadNames_err_persists (cfg : ClientConfig) (tr : Transport)
    (nowAt : String → ℚ) (store₀ : Store)
    (hids : (store₀.map fun r => r.id).Nodup)
    (r : ChunkRecord) (hr₀ : r ∈ store₀) (msg : String)
    (htr : tr r.fileName r.chunkIndex = .err msg) :
    ∀ (names : List String) (store : Store) (att : List (String × Nat))
      (acc : List (String × String)), names.Nodup → r ∈ store →
      ∃ r2 ∈ (uploadNames cfg tr nowAt store₀ names store att acc).store,
        r2.id = r.id ∧ r2.fileName = r.fileName ∧
        r2.chunkIndex = r.chunkIndex ∧ r2.data = r.data := by
  have hinj : ∀ c ∈ store₀, c.id = r.id → c = r := by
    intro c hc hcid
    exact List.inj_on_of_nodup_map hids hc hr₀ hcid
  intro names
  induction names with
  | nil =>
    intro store att acc _ hr
    rw [uploadNames]
    exact ⟨r, hr, rfl, rfl, rfl, rfl⟩
  | cons fn rest ih =>
    intro store att acc hnd hr
    have hrest : rest.Nodup := (List.nodup_cons.mp hnd).2
    have hfn_rest : fn ∉ rest := (List.nodup_cons.mp hnd).1
    by_cases hfn : fn = r.fileName
    · by_cases he : eligible cfg (nowAt fn) r = true
      · have hrg : r ∈ groupOf store₀ fn := mem_groupOf.mpr ⟨hr₀, hfn.symm⟩
        have hpers : failureUpdate cfg (nowAt fn) msg r
            ∈ (upload_file_chunks cfg tr fn (groupOf store₀ fn)
              (nowAt fn) store).1.store :=
          upload_file_chunks_err_persists cfg tr fn (groupOf store₀ fn)
            (nowAt fn) store r msg (groupOf_ids_nodup hids) hrg he
            (by rw [← hfn] at htr; exact htr)
        rcases hres : (upload_file_chunks cfg tr fn (groupOf store₀ fn)
            (nowAt fn) store).2 with msg2 | p
        · rw [uploadNames_cons_err cfg tr nowAt store₀ fn rest store att acc
            msg2 hres]
          exact ⟨failureUpdate cfg (nowAt fn) msg r, hpers, rfl, rfl, rfl, rfl⟩
        · rw [uploadNames_cons_ok cfg tr nowAt store₀ fn rest store att acc
            p hres]
          refine ⟨failureUpdate cfg (nowAt fn) msg r, ?_, rfl, rfl, rfl, rfl⟩
          refine uploadNames_untouched cfg tr nowAt store₀ rest _ _ _ _
            hpers ?_
          intro fnm hm c hc _ hcid
          have hcr : c = r := hinj c (mem_groupOf.mp hc).1 hcid
          have : fnm = fn := by
            rw [← (mem_groupOf.mp hc).2, hcr, ← hfn]
          exact hfn_rest (this ▸ hm)
      · refine ⟨r, ?_, rfl, rfl, rfl, rfl⟩
        refine uploadNames_untouched cfg tr nowAt store₀ (fn :: rest)
          _ _ _ _ hr ?_
        intro fnm hm c hc he2 hcid
        have hcr : c = r := hinj c (mem_groupOf.mp hc).1 hcid
        have hfnm : fnm = r.fileName := by
          rw [← (mem_groupOf.mp hc).2, hcr]
        rcases List.mem_cons.mp hm with h1 | h1
        · subst h1
          rw [hcr] at he2
          exact he he2
        · exact hfn_rest (by rw [hfnm, ← hfn] at h1; exact h1)
    · have huntouched : r ∈ (upload_file_chunks cfg tr fn
          (groupOf store₀ fn) (nowAt fn) store).1.store := by
        refine upload_file_chunks_untouched cfg tr fn (groupOf store₀ fn)
          (nowAt fn) store r hr ?_
        intro c hc _ hcid
        have hcr : c = r := hinj c (mem_groupOf.mp hc).1 hcid
        exact hfn (by rw [← (mem_groupOf.mp hc).2, hcr])
      rcases hres : (upload_file_chunks cfg tr fn (groupOf store₀ fn)
          (nowAt fn) store).2 with msg2 | p
      · rw [uploadNames_cons_err cfg tr nowAt store₀ fn rest store att acc
          msg2 hres]
        exact ⟨r, huntouched, rfl, rfl, rfl, rfl⟩
      · rw [uploadNames_cons_ok cfg tr nowAt store₀ fn rest store att acc
          p hres]
        exact ih _ _ _ hrest huntouched

/-- C3: at-least-once delivery.  During an upload pass over a store
with distinct record keys, a record disappears from the store only if a
transport success for that exact (fileName, chunkIndex) was observed in
the pass while the record was due, and whenever the transport fails for
a record its key, fileName, chunkIndex and data survive the pass in the
store, so the chunk can be uploaded again later. -/
theorem C3_at_least_once (cfg : ClientConfig) (tr : Transport)
    (nowAt : String → ℚ) (store : Store)
    (hids : (store.map fun r => r.id).Nodup)
    (r : ChunkRecord) (hr : r ∈ store) :
    (r.id ∉ (upload_buffered_files cfg tr nowAt store).store.map
        (fun r2 => r2.id) →
      eligible cfg (nowAt r.fileName) r = true ∧
      ∃ resp, tr r.fileName r.chunkIndex = .ok resp)
    ∧ (∀ msg, tr r.fileName r.chunkIndex = .err msg →
      ∃ r2 ∈ (upload_buffered_files cfg tr nowAt store).store,
        r2.id = r.id ∧ r2.fileName = r.fileName ∧
        r2.chunkIndex = r.chunkIndex ∧ r2.data = r.data) := by
  have hne : store.isEmpty = false := by
    cases store with
    | nil => cases hr
    | cons a l => rfl
  have hinj : ∀ c ∈ store, c.id = r.id → c = r := by
    intro c hc hcid
    exact List.inj_on_of_nodup_map hids hc hr hcid
  constructor
  · intro hout
    rw [upload_buffered_files, hne] at hout
    simp only [Bool.false_eq_true, if_false] at hout
    obtain ⟨fnm, _, c, hc, he, hcid, resp, htr⟩ :=
      uploadNames_delete_implies_ok cfg tr nowAt store
        (fileNamesOf store) store [] [] r.id
        (List.mem_map.mpr ⟨r, hr, rfl⟩) hout
    have hcr : c = r := hinj c (mem_groupOf.mp hc).1 hcid
    have hfnm : fnm = r.fileName := by
      rw [← (mem_groupOf.mp hc).2, hcr]
    subst hcr
    subst hfnm
    exact ⟨he, resp, htr⟩
  · intro msg htr
    rw [upload_buffered_files, hne]
    simp only [Bool.false_eq_true, if_false]
    exact uploadNames_err_persists cfg tr nowAt store hids r hr msg htr
      (fileNamesOf store) store [] [] (fileNamesOf_nodup store) hr

/-- Witness for C3: in the two-record scenario the failing record of
file a survives the pass with its identity and data intact, and only
records whose transport succeeded can ever disappear. -/
theorem C3_at_least_once_witness :
    ((([⟨"a-0", "a", 0, [1], ⟨0, none, 0, []⟩⟩,
        ⟨"b-0", "b", 0, [2], ⟨0, none, 0, []⟩⟩] : Store).map
          fun r => r.id).Nodup
      ∧ (⟨"a-0", "a", 0, [1], ⟨0, none, 0, []⟩⟩ : ChunkRecord) ∈
        ([⟨"a-0", "a", 0, [1], ⟨0, none, 0, []⟩⟩,
          ⟨"b-0", "b", 0, [2], ⟨0, none, 0, []⟩⟩] : Store))
    ∧ (∀ msg, (fun fn _ => if fn = "a" then TransportResult.err "boom"
          else TransportResult.ok none : Transport) "a" 0 = .err msg →
      ∃ r2 ∈ (upload_buffered_files ⟨4, none, 1, 60, 2⟩
          (fun fn _ => if fn = "a" then .err "boom" else .ok none)
          (fun _ => 0)
          [⟨"a-0", "a", 0, [1], ⟨0, none, 0, []⟩⟩,
           ⟨"b-0", "b", 0, [2], ⟨0, none, 0, []⟩⟩]).store,
        r2.id = "a-0" ∧ r2.fileName = "a" ∧ r2.chunkIndex = 0 ∧
        r2.data = [1]) :=
  ⟨⟨by decide, by decide⟩,
   (C3_at_least_once ⟨4, none, 1, 60, 2⟩
     (fun fn _ => if fn = "a" then .err "boom" else .ok none)
     (fun _ => 0)
     [⟨"a-0", "a", 0, [1], ⟨0, none, 0, []⟩⟩,
      ⟨"b-0", "b", 0, [2], ⟨0, none, 0, []⟩⟩]
     (by decide)
     ⟨"a-0", "a", 0, [1], ⟨0, none, 0, []⟩⟩
     (by decide)).2⟩

theorem trimErrors_length (es : List RetryErrorEntry) :
    (trimErrors es).length = min es.length 5 := by
  rw [trimErrors]
  by_cases h5 : 5 < es.length
  · rw [if_pos h5]
    simp only [List.length_drop]
    omega
  · rw [if_neg h5]
    omega

theorem trimErrors_getLast (es : List RetryErrorEntry) :
    (trimErrors es).getLast? = es.getLast? := by
  rw [trimErrors]
  by_cases h5 : 5 < es.length
  · rw [if_pos h5]
    have hlen : (es.drop (es.length - 5)).length = 5 := by
      simp only [List.length_drop]
      omega
    rw [List.getLast?_eq_getElem?, List.getLast?_eq_getElem?, hlen,
      List.getElem?_drop]
    congr 1
    omega
  · rw [if_neg h5]

theorem eligible_not_reached {cfg : ClientConfig} {now : ℚ}
    {c : ChunkRecord} (he : eligible cfg now c = true) :
    reachedMaxRetries cfg c.retryMetadata.retryCount = false := by
  rw [eligible, Bool.and_eq_true] at he
  simpa using he.2

/-- C6: backoff postcondition on failure.  When the nth attempt
(n = previous retryCount + 1) of a due chunk fails, the record saved
back to the store carries retryCount n, lastAttempt equal to the pass
timestamp, nextRetry equal to that timestamp plus the deterministic
delay min(initialDelay * multiplier^(n-1), maxDelay) (in milliseconds),
and an error ring that gained the entry (now, message) while keeping at
most the 5 most recent entries; the pass records one more error and no
extra success, and the record is saved, not deleted. -/
theorem C6_backoff_postcondition (cfg : ClientConfig) (tr : Transport)
    (fn : String) (now : ℚ) (st : GroupPassState) (c : ChunkRecord)
    (n : Nat) (msg : String)
    (hdue : c.retryMetadata.nextRetry ≤ now)
    (hmax : reachedMaxRetries cfg c.retryMetadata.retryCount = false)
    (hn : n = c.retryMetadata.retryCount + 1)
    (htr : tr fn c.chunkIndex = .err msg) :
    ∃ rec ∈ (processChunk cfg tr fn now st c).store,
      rec = failureUpdate cfg now msg c ∧
      rec.retryMetadata.retryCount = n ∧
      rec.retryMetadata.lastAttempt = some now ∧
      rec.retryMetadata.nextRetry = now +
        min (cfg.initialRetryDelay * cfg.retryMultiplier ^ (n - 1))
          cfg.maxRetryDelay * 1000 ∧
      rec.retryMetadata.errors =
        trimErrors (c.retryMetadata.errors ++ [⟨now, msg⟩]) ∧
      rec.retryMetadata.errors.length ≤ 5 ∧
      rec.retryMetadata.errors.getLast? = some ⟨now, msg⟩ ∧
      rec.id = c.id ∧ rec.data = c.data ∧
      (processChunk cfg tr fn now st c).errorsCount = st.errorsCount + 1 ∧
      (processChunk cfg tr fn now st c).successCount = st.successCount := by
  have he : eligible cfg now c = true := by
    rw [eligible, hmax]
    simpa using hdue
  rw [processChunk_err cfg tr fn now st c msg he htr]
  refine ⟨failureUpdate cfg now msg c, mem_saveRecord_self _ _,
    rfl, ?_, rfl, ?_, rfl, ?_, ?_, rfl, rfl, rfl, rfl⟩
  · rw [failureUpdate, hn]
  · rw [failureUpdate, hn]
    simp only [Nat.add_sub_cancel]
  · rw [failureUpdate]
    simp only
    rw [trimErrors_length]
    simp only [List.length_append, List.length_cons, List.length_nil]
    omega
  · rw [failureUpdate]
    simp only
    rw [trimErrors_getLast _, List.getLast?_concat]

/-- Witness for C6: a chunk with one previous failure, due at time 5,
fails again; the saved record shows retryCount 2 and
nextRetry = 5 + min(1 * 2, 60) * 1000. -/
theorem C6_backoff_postcondition_witness :
    ((⟨1, some 0, 3, []⟩ : RetryMetadata).nextRetry ≤ (5 : ℚ)
      ∧ reachedMaxRetries ⟨4, some 5, 1, 60, 2⟩ 1 = false
      ∧ (2 : Nat) = 1 + 1)
    ∧ ∃ rec ∈ (processChunk ⟨4, some 5, 1, 60, 2⟩ (fun _ _ => .err "x")
        "f" 5
        ⟨[⟨"f-0", "f", 0, [7], ⟨1, some 0, 3, []⟩⟩], none, 0, 0, []⟩
        ⟨"f-0", "f", 0, [7], ⟨1, some 0, 3, []⟩⟩).store,
      rec = failureUpdate ⟨4, some 5, 1, 60, 2⟩ 5 "x"
        ⟨"f-0", "f", 0, [7], ⟨1, some 0, 3, []⟩⟩ ∧
      rec.retryMetadata.retryCount = 2 ∧
      rec.retryMetadata.lastAttempt = some 5 ∧
      rec.retryMetadata.nextRetry = 5 +
        min ((1 : ℚ) * 2 ^ (2 - 1)) 60 * 1000 ∧
      rec.retryMetadata.errors = trimErrors ([] ++ [⟨5, "x"⟩]) ∧
      rec.retryMetadata.errors.length ≤ 5 ∧
      rec.retryMetadata.errors.getLast? = some ⟨5, "x"⟩ ∧
      rec.id = "f-0" ∧ rec.data = [7] ∧
      (processChunk ⟨4, some 5, 1, 60, 2⟩ (fun _ _ => .err "x") "f" 5
        ⟨[⟨"f-0", "f", 0, [7], ⟨1, some 0, 3, []⟩⟩], none, 0, 0, []⟩
        ⟨"f-0", "f", 0, [7], ⟨1, some 0, 3, []⟩⟩).errorsCount = 0 + 1 ∧
      (processChunk ⟨4, some 5, 1, 60, 2⟩ (fun _ _ => .err "x") "f" 5
        ⟨[⟨"f-0", "f", 0, [7], ⟨1, some 0, 3, []⟩⟩], none, 0, 0, []⟩
        ⟨"f-0", "f", 0, [7], ⟨1, some 0, 3, []⟩⟩).successCount = 0 :=
  ⟨⟨by decide, by decide, by decide⟩,
   C6_backoff_postcondition ⟨4, some 5, 1, 60, 2⟩ (fun _ _ => .err "x")
     "f" 5 ⟨[⟨"f-0", "f", 0, [7], ⟨1, some 0, 3, []⟩⟩], none, 0, 0, []⟩
     ⟨"f-0", "f", 0, [7], ⟨1, some 0, 3, []⟩⟩ 2 "x"
     (by decide) (by decide) (by decide) rfl⟩

theorem processChunk_maxed (cfg : ClientConfig) (tr : Transport)
    (fn : String) (now : ℚ) (st : GroupPassState) (c : ChunkRecord)
    (h : reachedMaxRetries cfg c.retryMetadata.retryCount = true) :
    processChunk cfg tr fn now st c = st := by
  apply processChunk_skip
  rw [eligible, h]
  simp

theorem foldl_rc_le (cfg : ClientConfig) (tr : Transport) (fn : String)
    (now : ℚ) (m : Nat) (hm : cfg.maxRetries = some m)
    (cs : List ChunkRecord) :
    ∀ st : GroupPassState, (∀ r ∈ st.store, r.retryMetadata.retryCount ≤ m) →
      ∀ r ∈ (cs.foldl (processChunk cfg tr fn now) st).store,
        r.retryMetadata.retryCount ≤ m := by
  induction cs with
  | nil => intro st h; simpa using h
  | cons c cs ih =>
    intro st h
    rw [List.foldl_cons]
    refine ih _ ?_
    intro r hr
    by_cases he : eligible cfg now c = true
    · rcases htr : tr fn c.chunkIndex with resp | msg
      · rw [processChunk_ok cfg tr fn now st c resp he htr] at hr
        exact h r (mem_deleteRecord.mp hr).1
      · rw [processChunk_err cfg tr fn now st c msg he htr] at hr
        rcases mem_of_mem_saveRecord hr with h1 | h1
        · subst h1
          have := eligible_not_reached he
          rw [reachedMaxRetries, hm] at this
          simp only [decide_eq_false_iff_not, not_le] at this
          simpa using this
        · exact h r h1
    · rw [processChunk_skip cfg tr fn now st c (by simpa using he)] at hr
      exact h r hr

theorem uploadNames_rc_le (cfg : ClientConfig) (tr : Transport)
    (nowAt : String → ℚ) (store₀ : Store) (m : Nat)
    (hm : cfg.maxRetries = some m) :
    ∀ (names : List String) (store : Store) (att : List (String × Nat))
      (acc : List (String × String)),
      (∀ r ∈ store, r.retryMetadata.retryCount ≤ m) →
      ∀ r ∈ (uploadNames cfg tr nowAt store₀ names store att acc).store,
        r.retryMetadata.retryCount ≤ m := by
  intro names
  induction names with
  | nil =>
    intro store att acc h
    rw [uploadNames]
    exact h
  | cons fn rest ih =>
    intro store att acc h
    have hnext : ∀ r ∈ (upload_file_chunks cfg tr fn (groupOf store₀ fn)
        (nowAt fn) store).1.store, r.retryMetadata.retryCount ≤ m := by
      rw [upload_file_chunks_state]
      exact foldl_rc_le cfg tr fn (nowAt fn) m hm _ _ h
    rcases hres : (upload_file_chunks cfg tr fn (groupOf store₀ fn)
        (nowAt fn) store).2 with msg | p
    · rw [uploadNames_cons_err cfg tr nowAt store₀ fn rest store att acc
        msg hres]
      exact hnext
    · rw [uploadNames_cons_ok cfg tr nowAt store₀ fn rest store att acc
        p hres]
      exact ih _ _ _ hnext

theorem backgroundNames_cons_err (cfg : ClientConfig) (tr : Transport)
    (nowAt : String → ℚ) (retryable : List ChunkRecord) (fn : String)
    (rest : List String) (store : Store) (att : List (String × Nat))
    (s f : Nat) (msg : String)
    (h : (upload_file_chunks cfg tr fn (groupOf retryable fn) (nowAt fn)
      store).2 = .error msg) :
    backgroundNames cfg tr nowAt retryable (fn :: rest) store att s f =
      backgroundNames cfg tr nowAt retryable rest
        (upload_file_chunks cfg tr fn (groupOf retryable fn) (nowAt fn)
          store).1.store
        (att ++ (upload_file_chunks cfg tr fn (groupOf retryable fn)
          (nowAt fn) store).1.attempts.map (fun i => (fn, i)))
        s (f + 1) := by
  rw [backgroundNames]
  split
  · rename_i msg2 heq
    rw [h] at heq
  · rename_i p heq
    rw [h] at heq
    cases heq

theorem backgroundNames_cons_ok (cfg : ClientConfig) (tr : Transport)
    (nowAt : String → ℚ) (retryable : List ChunkRecord) (fn : String)
    (rest : List String) (store : Store) (att : List (String × Nat))
    (s f : Nat) (p : String × String)
    (h : (upload_file_chunks cfg tr fn (groupOf retryable fn) (nowAt fn)
      store).2 = .ok p) :
    backgroundNames cfg tr nowAt retryable (fn :: rest) store att s f =
      backgroundNames cfg tr nowAt retryable rest
        (upload_file_chunks cfg tr fn (groupOf retryable fn) (nowAt fn)
          store).1.store
        (att ++ (upload_file_chunks cfg tr fn (groupOf retryable fn)
          (nowAt fn) store).1.attempts.map (fun i => (fn, i)))
        (s + 1) f := by
  rw [backgroundNames]
  split
  · rename_i msg2 heq
    rw [h] at heq
    cases heq
  · rename_i p2 heq
    rw [h] at heq

theorem backgroundNames_rc_le (cfg : ClientConfig) (tr : Transport)
    (nowAt : String → ℚ) (retryable : List ChunkRecord) (m : Nat)
    (hm : cfg.maxRetries = some m) :
    ∀ (names : List String) (store : Store) (att : List (String × Nat))
      (s f : Nat),
      (∀ r ∈ store, r.retryMetadata.retryCount ≤ m) →
      ∀ r ∈ (backgroundNames cfg tr nowAt retryable names store
          att s f).store,
        r.retryMetadata.retryCount ≤ m := by
  intro names
  induction names with
  | nil =>
    intro store att s f h
    rw [backgroundNames]
    exact h
  | cons fn rest ih =>
    intro store att s f h
    have hnext : ∀ r ∈ (upload_file_chunks cfg tr fn (groupOf retryable fn)
        (nowAt fn) store).1.store, r.retryMetadata.retryCount ≤ m := by
      rw [upload_file_chunks_state]
      exact foldl_rc_le cfg tr fn (nowAt fn) m hm _ _ h
    rcases hres : (upload_file_chunks cfg tr fn (groupOf retryable fn)
        (nowAt fn) store).2 with msg | p
    · rw [backgroundNames_cons_err cfg tr nowAt retryable fn rest store
        att s f msg hres]
      exact ih _ _ _ _ hnext
    · rw [backgroundNames_cons_ok cfg tr nowAt retryable fn rest store
        att s f p hres]
      exact ih _ _ _ _ hnext

/-- C7: max-retry ceiling.  With maxRetries configured to m: a chunk
whose retryCount has reached m is skipped by the chunk loop with no
transport call and no state change at all; the background filter
excludes such records as well; and retryCount is never pushed past m:
if every record of the store satisfies retryCount at most m before a
foreground or background pass, every record still satisfies it after
the pass. -/
theorem C7_max_retry_ceiling (cfg : ClientConfig) (m : Nat)
    (hm : cfg.maxRetries = some m) :
    (∀ (tr : Transport) (fn : String) (now : ℚ) (st : GroupPassState)
       (c : ChunkRecord), m ≤ c.retryMetadata.retryCount →
       processChunk cfg tr fn now st c = st)
    ∧ (∀ (now : ℚ) (store : Store) (c : ChunkRecord),
       c ∈ retryableRecords cfg now store →
       c.retryMetadata.retryCount < m)
    ∧ (∀ (tr : Transport) (nowAt : String → ℚ) (store : Store),
       (∀ r ∈ store, r.retryMetadata.retryCount ≤ m) →
       ∀ r ∈ (upload_buffered_files cfg tr nowAt store).store,
         r.retryMetadata.retryCount ≤ m)
    ∧ (∀ (tr : Transport) (now₀ : ℚ) (nowAt : String → ℚ) (store : Store),
       (∀ r ∈ store, r.retryMetadata.retryCount ≤ m) →
       ∀ r ∈ (process_background_upload cfg tr now₀ nowAt store).store,
         r.retryMetadata.retryCount ≤ m) := by
  refine ⟨?_, ?_, ?_, ?_⟩
  · intro tr fn now st c h
    apply processChunk_maxed
    rw [reachedMaxRetries, hm]
    simpa using h
  · intro now store c hc
    rw [retryableRecords] at hc
    have he := (List.mem_filter.mp hc).2
    have := eligible_not_reached he
    rw [reachedMaxRetries, hm] at this
    simpa using this
  · intro tr nowAt store h r hr
    rw [upload_buffered_files] at hr
    by_cases hne : store.isEmpty
    · rw [if_pos hne] at hr
      exact h r hr
    · rw [if_neg hne] at hr
      exact uploadNames_rc_le cfg tr nowAt store m hm
        (fileNamesOf store) store [] [] h r hr
  · intro tr now₀ nowAt store h r hr
    rw [process_background_upload] at hr
    exact backgroundNames_rc_le cfg tr nowAt
      (retryableRecords cfg now₀ store) m hm _ store [] 0 0 h r hr

/-- Witness for C7 at concrete inputs: with maxRetries 2 a chunk whose
retryCount is 2 is left untouched by the chunk loop, excluded by the
background filter, and the ceiling is preserved by a full pass over a
one-record store. -/
theorem C7_max_retry_ceiling_witness :
    ClientConfig.maxRetries ⟨4, some 2, 1, 60, 2⟩ = some 2 ∧
    (∀ (tr : Transport) (fn : String) (now : ℚ) (st : GroupPassState)
       (c : ChunkRecord), 2 ≤ c.retryMetadata.retryCount →
       processChunk ⟨4, some 2, 1, 60, 2⟩ tr fn now st c = st)
    ∧ (∀ (now : ℚ) (store : Store) (c : ChunkRecord),
       c ∈ retryableRecords ⟨4, some 2, 1, 60, 2⟩ now store →
       c.retryMetadata.retryCount < 2)
    ∧ (∀ (tr : Transport) (nowAt : String → ℚ) (store : Store),
       (∀ r ∈ store, r.retryMetadata.retryCount ≤ 2) →
       ∀ r ∈ (upload_buffered_files ⟨4, some 2, 1, 60, 2⟩ tr nowAt
           store).store,
         r.retryMetadata.retryCount ≤ 2)
    ∧ (∀ (tr : Transport) (now₀ : ℚ) (nowAt : String → ℚ) (store : Store),
       (∀ r ∈ store, r.retryMetadata.retryCount ≤ 2) →
       ∀ r ∈ (process_background_upload ⟨4, some 2, 1, 60, 2⟩ tr now₀
           nowAt store).store,
         r.retryMetadata.retryCount ≤ 2) :=
  ⟨rfl, C7_max_retry_ceiling ⟨4, some 2, 1, 60, 2⟩ 2 rfl⟩

theorem upload_file_chunks_attempts (cfg : ClientConfig) (tr : Transport)
    (fn : String) (chunks : List ChunkRecord) (now : ℚ) (store : Store) :
    (upload_file_chunks cfg tr fn chunks now store).1.attempts =
      ((sortChunks chunks).filter (eligible cfg now)).map
        (fun c => c.chunkIndex) := by
  rw [upload_file_chunks_state, foldl_attempts]
  rfl

/-- C8: a skipped chunk does not pause its file.  Within one
_upload_file_chunks pass over a file group, when a lower-indexed chunk
is not due (or out of retries) while a higher-indexed chunk is due and
its transport call succeeds, the higher-indexed chunk is attempted and
its record is deleted while the skipped chunk is never attempted and
remains buffered: the pass leaves a gap in the transmitted index
sequence instead of stopping at the skipped chunk. -/
theorem C8_skip_gap (cfg : ClientConfig) (tr : Transport) (fn : String)
    (now : ℚ) (store : Store) (ci cj : ChunkRecord)
    (resp : Option ChunkResponse)
    (hids : (store.map fun r => r.id).Nodup)
    (hidx : ((groupOf store fn).map fun r => r.chunkIndex).Nodup)
    (hci : ci ∈ store) (hcif : ci.fileName = fn)
    (hcj : cj ∈ store) (hcjf : cj.fileName = fn)
    (hine : eligible cfg now ci = false)
    (hel : eligible cfg now cj = true)
    (htr : tr fn cj.chunkIndex = .ok resp) :
    cj.chunkIndex ∈
      (upload_file_chunks cfg tr fn (groupOf store fn) now store).1.attempts
    ∧ ci.chunkIndex ∉
      (upload_file_chunks cfg tr fn (groupOf store fn) now store).1.attempts
    ∧ ci ∈
      (upload_file_chunks cfg tr fn (groupOf store fn) now store).1.store
    ∧ cj.id ∉
      ((upload_file_chunks cfg tr fn (groupOf store fn) now
        store).1.store.map fun r => r.id) := by
  have hcig : ci ∈ groupOf store fn := mem_groupOf.mpr ⟨hci, hcif⟩
  have hcjg : cj ∈ groupOf store fn := mem_groupOf.mpr ⟨hcj, hcjf⟩
  have hperm := sortChunks_perm (groupOf store fn)
  refine ⟨?_, ?_, ?_, ?_⟩
  · rw [upload_file_chunks_attempts]
    exact List.mem_map.mpr ⟨cj,
      List.mem_filter.mpr ⟨hperm.mem_iff.mpr hcjg, hel⟩, rfl⟩
  · rw [upload_file_chunks_attempts]
    intro hmem
    obtain ⟨c, hc, hcidx⟩ := List.mem_map.mp hmem
    have hcg : c ∈ groupOf store fn :=
      hperm.mem_iff.mp (List.mem_filter.mp hc).1
    have hce : eligible cfg now c = true := (List.mem_filter.mp hc).2
    have : c = ci := List.inj_on_of_nodup_map hidx hcg hcig hcidx
    rw [this] at hce
    rw [hce] at hine
    cases hine
  · refine upload_file_chunks_untouched cfg tr fn (groupOf store fn)
      now store ci hci ?_
    intro c hc hce hcid
    have : c = ci :=
      List.inj_on_of_nodup_map hids (mem_groupOf.mp hc).1 hci hcid
    rw [this] at hce
    rw [hce] at hine
    cases hine
  · rw [upload_file_chunks_state]
    exact foldl_ok_removes cfg tr fn now (sortChunks (groupOf store fn))
      (sortChunks_ids_nodup (groupOf_ids_nodup hids)) cj
      (hperm.mem_iff.mpr hcjg) hel resp htr _

/-- Witness for C8: chunk 0 of file f is not due (nextRetry 5, clock
0) while chunk 1 is due and succeeds; the pass attempts only index 1,
deletes its record and leaves chunk 0 buffered. -/
theorem C8_skip_gap_witness :
    ((([⟨"f-0", "f", 0, [1], ⟨0, none, 5, []⟩⟩,
        ⟨"f-1", "f", 1, [2], ⟨0, none, 0, []⟩⟩] : Store).map
          fun r => r.id).Nodup
      ∧ eligible ⟨4, none, 1, 60, 2⟩ 0
          ⟨"f-0", "f", 0, [1], ⟨0, none, 5, []⟩⟩ = false
      ∧ eligible ⟨4, none, 1, 60, 2⟩ 0
          ⟨"f-1", "f", 1, [2], ⟨0, none, 0, []⟩⟩ = true)
    ∧ ((1 : Nat) ∈
        (upload_file_chunks ⟨4, none, 1, 60, 2⟩
          (fun _ _ => .ok (some ⟨some "srv.txt"⟩)) "f"
          (groupOf [⟨"f-0", "f", 0, [1], ⟨0, none, 5, []⟩⟩,
            ⟨"f-1", "f", 1, [2], ⟨0, none, 0, []⟩⟩] "f") 0
          [⟨"f-0", "f", 0, [1], ⟨0, none, 5, []⟩⟩,
           ⟨"f-1", "f", 1, [2], ⟨0, none, 0, []⟩⟩]).1.attempts
      ∧ (0 : Nat) ∉
        (upload_file_chunks ⟨4, none, 1, 60, 2⟩
          (fun _ _ => .ok (some ⟨some "srv.txt"⟩)) "f"
          (groupOf [⟨"f-0", "f", 0, [1], ⟨0, none, 5, []⟩⟩,
            ⟨"f-1", "f", 1, [2], ⟨0, none, 0, []⟩⟩] "f") 0
          [⟨"f-0", "f", 0, [1], ⟨0, none, 5, []⟩⟩,
           ⟨"f-1", "f", 1, [2], ⟨0, none, 0, []⟩⟩]).1.attempts
      ∧ (⟨"f-0", "f", 0, [1], ⟨0, none, 5, []⟩⟩ : ChunkRecord) ∈
        (upload_file_chunks ⟨4, none, 1, 60, 2⟩
          (fun _ _ => .ok (some ⟨some "srv.txt"⟩)) "f"
          (groupOf [⟨"f-0", "f", 0, [1], ⟨0, none, 5, []⟩⟩,
            ⟨"f-1", "f", 1, [2], ⟨0, none, 0, []⟩⟩] "f") 0
          [⟨"f-0", "f", 0, [1], ⟨0, none, 5, []⟩⟩,
           ⟨"f-1", "f", 1, [2], ⟨0, none, 0, []⟩⟩]).1.store
      ∧ "f-1" ∉
        ((upload_file_chunks ⟨4, none, 1, 60, 2⟩
          (fun _ _ => .ok (some ⟨some "srv.txt"⟩)) "f"
          (groupOf [⟨"f-0", "f", 0, [1], ⟨0, none, 5, []⟩⟩,
            ⟨"f-1", "f", 1, [2], ⟨0, none, 0, []⟩⟩] "f") 0
          [⟨"f-0", "f", 0, [1], ⟨0, none, 5, []⟩⟩,
           ⟨"f-1", "f", 1, [2], ⟨0, none, 0, []⟩⟩]).1.store.map
          fun r => r.id)) :=
  ⟨⟨by decide, by decide, by decide⟩,
   C8_skip_gap ⟨4, none, 1, 60, 2⟩
     (fun _ _ => .ok (some ⟨some "srv.txt"⟩)) "f" 0
     [⟨"f-0", "f", 0, [1], ⟨0, none, 5, []⟩⟩,
      ⟨"f-1", "f", 1, [2], ⟨0, none, 0, []⟩⟩]
     ⟨"f-0", "f", 0, [1], ⟨0, none, 5, []⟩⟩
     ⟨"f-1", "f", 1, [2], ⟨0, none, 0, []⟩⟩
     (some ⟨some "srv.txt"⟩)
     (by decide) (by decide) (by decide) rfl (by decide) rfl
     (by decide) (by decide) rfl⟩

theorem upload_file_chunks_errorsCount (cfg : ClientConfig)
    (tr : Transport) (fn : String) (chunks : List ChunkRecord) (now : ℚ)
    (store : Store) :
    (upload_file_chunks cfg tr fn chunks now store).1.errorsCount =
      ((sortChunks chunks).filter (chunkFails cfg tr fn now)).length := by
  rw [upload_file_chunks_state, foldl_errorsCount]
  simp

theorem upload_file_chunks_result (cfg : ClientConfig) (tr : Transport)
    (fn : String) (chunks : List ChunkRecord) (now : ℚ) (store : Store) :
    (upload_file_chunks cfg tr fn chunks now store).2 =
      if (upload_file_chunks cfg tr fn chunks now store).1.errorsCount ≠ 0
      then .error
        (toString (upload_file_chunks cfg tr fn chunks now
          store).1.errorsCount ++ " chunk(s) failed for " ++ fn)
      else .ok (fn, (upload_file_chunks cfg tr fn chunks now
        store).1.serverFilename.getD (basename fn)) := by
  rw [upload_file_chunks]
  split <;> rfl

theorem upload_file_chunks_failed_result (cfg : ClientConfig)
    (tr : Transport) (fn : String) (chunks : List ChunkRecord) (now : ℚ)
    (store : Store)
    (h : ((sortChunks chunks).filter (chunkFails cfg tr fn now)).length
      ≠ 0) :
    (upload_file_chunks cfg tr fn chunks now store).2 =
      .error (toString ((sortChunks chunks).filter
          (chunkFails cfg tr fn now)).length
        ++ " chunk(s) failed for " ++ fn) := by
  rw [upload_file_chunks_result, upload_file_chunks_errorsCount]
  rw [if_pos h]

theorem backgroundNames_attempts (cfg : ClientConfig) (tr : Transport)
    (nowAt : String → ℚ) (retryable : List ChunkRecord) :
    ∀ (names : List String) (store : Store) (att : List (String × Nat))
      (s f : Nat),
      (backgroundNames cfg tr nowAt retryable names store att s f).attempts
        = att ++ (names.map (fun fn =>
            (((sortChunks (groupOf retryable fn)).filter
              (eligible cfg (nowAt fn))).map
                (fun c => c.chunkIndex)).map (fun i => (fn, i)))).flatten := by
  intro names
  induction names with
  | nil =>
    intro store att s f
    rw [backgroundNames]
    simp
  | cons fn rest ih =>
    intro store att s f
    have hatt := upload_file_chunks_attempts cfg tr fn
      (groupOf retryable fn) (nowAt fn) store
    rcases hres : (upload_file_chunks cfg tr fn (groupOf retryable fn)
        (nowAt fn) store).2 with msg | p
    · rw [backgroundNames_cons_err cfg tr nowAt retryable fn rest store
        att s f msg hres, ih, hatt]
      simp
    · rw [backgroundNames_cons_ok cfg tr nowAt retryable fn rest store
        att s f p hres, ih, hatt]
      simp

/-- C2 counterexample: two buffered files a and b; the transport fails
for every chunk of a and succeeds for b.  The pass raises the aggregate
error for a, but file b, although due and bound to succeed, is never
attempted and its record stays buffered: a failure in one file does
prevent the upload of chunks of the other files of the pass. -/
theorem C2_counterexample :
    eligible ⟨4, none, 1, 60, 2⟩ 0
        ⟨"b-0", "b", 0, [2], ⟨0, none, 0, []⟩⟩ = true
    ∧ (fun fn _ => if fn = "a" then TransportResult.err "boom"
        else TransportResult.ok none : Transport) "b" 0 = .ok none
    ∧ (upload_buffered_files ⟨4, none, 1, 60, 2⟩
        (fun fn _ => if fn = "a" then .err "boom" else .ok none)
        (fun _ => 0)
        [⟨"a-0", "a", 0, [1], ⟨0, none, 0, []⟩⟩,
         ⟨"b-0", "b", 0, [2], ⟨0, none, 0, []⟩⟩]).result
      = .error "1 chunk(s) failed for a"
    ∧ (upload_buffered_files ⟨4, none, 1, 60, 2⟩
        (fun fn _ => if fn = "a" then .err "boom" else .ok none)
        (fun _ => 0)
        [⟨"a-0", "a", 0, [1], ⟨0, none, 0, []⟩⟩,
         ⟨"b-0", "b", 0, [2], ⟨0, none, 0, []⟩⟩]).attempts
      = [("a", 0)]
    ∧ (⟨"b-0", "b", 0, [2], ⟨0, none, 0, []⟩⟩ : ChunkRecord) ∈
      (upload_buffered_files ⟨4, none, 1, 60, 2⟩
        (fun fn _ => if fn = "a" then .err "boom" else .ok none)
        (fun _ => 0)
        [⟨"a-0", "a", 0, [1], ⟨0, none, 0, []⟩⟩,
         ⟨"b-0", "b", 0, [2], ⟨0, none, 0, []⟩⟩]).store := by
  refine ⟨by decide, rfl, ?_, ?_, by decide⟩ <;> decide

/-- C2 (amended): within one file group every due chunk is attempted
even when earlier chunks fail, and the aggregate error naming the count
of failed chunks for that file is produced only after the whole group;
but upload_buffered_files propagates that error as soon as the failing
group finishes, so the file groups after it in the pass are not
attempted; failure isolation across files holds only in the background
pass, whose per-group exception handler makes it attempt every due
chunk of every group regardless of failures elsewhere. -/
theorem C2_failure_isolation_amended :
    (∀ (cfg : ClientConfig) (tr : Transport) (fn : String)
       (chunks : List ChunkRecord) (now : ℚ) (store : Store),
       (upload_file_chunks cfg tr fn chunks now store).1.attempts =
         ((sortChunks chunks).filter (eligible cfg now)).map
           (fun c => c.chunkIndex))
    ∧ (∀ (cfg : ClientConfig) (tr : Transport) (fn : String)
       (chunks : List ChunkRecord) (now : ℚ) (store : Store),
       ((sortChunks chunks).filter (chunkFails cfg tr fn now)).length ≠ 0 →
       (upload_file_chunks cfg tr fn chunks now store).2 =
         .error (toString ((sortChunks chunks).filter
             (chunkFails cfg tr fn now)).length
           ++ " chunk(s) failed for " ++ fn))
    ∧ (∀ (cfg : ClientConfig) (tr : Transport) (nowAt : String → ℚ)
       (store₀ : Store) (fn : String) (rest : List String) (store : Store)
       (att : List (String × Nat)) (acc : List (String × String)),
       ((sortChunks (groupOf store₀ fn)).filter
         (chunkFails cfg tr fn (nowAt fn))).length ≠ 0 →
       uploadNames cfg tr nowAt store₀ (fn :: rest) store att acc =
         ⟨(upload_file_chunks cfg tr fn (groupOf store₀ fn) (nowAt fn)
             store).1.store,
          att ++ (upload_file_chunks cfg tr fn (groupOf store₀ fn)
            (nowAt fn) store).1.attempts.map (fun i => (fn, i)),
          .error (toString ((sortChunks (groupOf store₀ fn)).filter
              (chunkFails cfg tr fn (nowAt fn))).length
            ++ " chunk(s) failed for " ++ fn)⟩)
    ∧ (∀ (cfg : ClientConfig) (tr : Transport) (now₀ : ℚ)
       (nowAt : String → ℚ) (store : Store),
       (process_background_upload cfg tr now₀ nowAt store).attempts =
         ((fileNamesOf (retryableRecords cfg now₀ store)).map (fun fn =>
           (((sortChunks (groupOf (retryableRecords cfg now₀ store)
                fn)).filter (eligible cfg (nowAt fn))).map
              (fun c => c.chunkIndex)).map (fun i => (fn, i)))).flatten) := by
  refine ⟨upload_file_chunks_attempts, upload_file_chunks_failed_result,
    ?_, ?_⟩
  · intro cfg tr nowAt store₀ fn rest store att acc h
    exact uploadNames_cons_err cfg tr nowAt store₀ fn rest store att acc _
      (upload_file_chunks_failed_result cfg tr fn (groupOf store₀ fn)
        (nowAt fn) store h)
  · intro cfg tr now₀ nowAt store
    rw [process_background_upload, backgroundNames_attempts]
    simp

/-- Witness for C2 (amended): in the two-file scenario, the failing
head group leaves the pass with the aggregate error for file a and no
attempts on file b, while the background pass attempts both files. -/
theorem C2_failure_isolation_amended_witness :
    (((sortChunks (groupOf [⟨"a-0", "a", 0, [1], ⟨0, none, 0, []⟩⟩,
          ⟨"b-0", "b", 0, [2], ⟨0, none, 0, []⟩⟩] "a")).filter
        (chunkFails ⟨4, none, 1, 60, 2⟩
          (fun fn _ => if fn = "a" then .err "boom" else .ok none)
          "a" 0)).length ≠ 0)
    ∧ uploadNames ⟨4, none, 1, 60, 2⟩
        (fun fn _ => if fn = "a" then .err "boom" else .ok none)
        (fun _ => 0)
        [⟨"a-0", "a", 0, [1], ⟨0, none, 0, []⟩⟩,
         ⟨"b-0", "b", 0, [2], ⟨0, none, 0, []⟩⟩]
        ["a", "b"]
        [⟨"a-0", "a", 0, [1], ⟨0, none, 0, []⟩⟩,
         ⟨"b-0", "b", 0, [2], ⟨0, none, 0, []⟩⟩] [] [] =
      ⟨(upload_file_chunks ⟨4, none, 1, 60, 2⟩
          (fun fn _ => if fn = "a" then .err "boom" else .ok none) "a"
          (groupOf [⟨"a-0", "a", 0, [1], ⟨0, none, 0, []⟩⟩,
            ⟨"b-0", "b", 0, [2], ⟨0, none, 0, []⟩⟩] "a") 0
          [⟨"a-0", "a", 0, [1], ⟨0, none, 0, []⟩⟩,
           ⟨"b-0", "b", 0, [2], ⟨0, none, 0, []⟩⟩]).1.store,
       [] ++ (upload_file_chunks ⟨4, none, 1, 60, 2⟩
          (fun fn _ => if fn = "a" then .err "boom" else .ok none) "a"
          (groupOf [⟨"a-0", "a", 0, [1], ⟨0, none, 0, []⟩⟩,
            ⟨"b-0", "b", 0, [2], ⟨0, none, 0, []⟩⟩] "a") 0
          [⟨"a-0", "a", 0, [1], ⟨0, none, 0, []⟩⟩,
           ⟨"b-0", "b", 0, [2], ⟨0, none, 0, []⟩⟩]).1.attempts.map
          (fun i => ("a", i)),
       .error (toString ((sortChunks (groupOf
            [⟨"a-0", "a", 0, [1], ⟨0, none, 0, []⟩⟩,
             ⟨"b-0", "b", 0, [2], ⟨0, none, 0, []⟩⟩] "a")).filter
          (chunkFails ⟨4, none, 1, 60, 2⟩
            (fun fn _ => if fn = "a" then .err "boom" else .ok none)
            "a" 0)).length ++ " chunk(s) failed for " ++ "a")⟩ :=
  ⟨by decide,
   C2_failure_isolation_amended.2.2.1 ⟨4, none, 1, 60, 2⟩
     (fun fn _ => if fn = "a" then .err "boom" else .ok none)
     (fun _ => 0)
     [⟨"a-0", "a", 0, [1], ⟨0, none, 0, []⟩⟩,
      ⟨"b-0", "b", 0, [2], ⟨0, none, 0, []⟩⟩]
     "a" ["b"]
     [⟨"a-0", "a", 0, [1], ⟨0, none, 0, []⟩⟩,
      ⟨"b-0", "b", 0, [2], ⟨0, none, 0, []⟩⟩] [] []
     (by decide)⟩

theorem upload_failed_ne_auth (x : String) :
    "Upload failed: " ++ x ≠ "Authentication failed: Invalid API key" := by
  intro h
  have h2 := congrArg String.data h
  rw [String.data_append] at h2
  simp at h2

/-- C10 counterexample: the errors raised for a 401 and for a 500 are
instances of the same exception class (the built-in RuntimeError), so
there is no AuthenticationError type distinct from a TransportError
type; only the message strings differ. -/
theorem C10_counterexample :
    upload_chunk (.httpError 401 "Unauthorized") =
      .error ⟨"RuntimeError", "Authentication failed: Invalid API key"⟩
    ∧ upload_chunk (.httpError 500 "Server Error") =
      .error ⟨"RuntimeError", "Upload failed: 500 - Server Error"⟩
    ∧ (⟨"RuntimeError", "Authentication failed: Invalid API key"⟩ :
        PyError).className =
      (⟨"RuntimeError", "Upload failed: 500 - Server Error"⟩ :
        PyError).className := by
  refine ⟨by decide, by decide, rfl⟩

/-- C10 (amended): a 401 response makes the transport call fail with
RuntimeError carrying the fixed message
"Authentication failed: Invalid API key", while every other non-2xx
status and every connection-level failure fails with a RuntimeError
whose message starts with "Upload failed: " and therefore differs from
the 401 message; the exception class is the same RuntimeError in every
failure path, so a caller can tell a 401 apart only by the message, not
by the exception type. -/
theorem C10_distinct_auth_amended :
    (∀ reason, upload_chunk (.httpError 401 reason) =
      .error ⟨"RuntimeError", "Authentication failed: Invalid API key"⟩)
    ∧ (∀ reason bodyJson, upload_chunk (.response 401 reason bodyJson) =
      .error ⟨"RuntimeError", "Authentication failed: Invalid API key"⟩)
    ∧ (∀ code reason, code ≠ 401 →
      upload_chunk (.httpError code reason) =
        .error ⟨"RuntimeError",
          "Upload failed: " ++ toString code ++ " - " ++ reason⟩ ∧
      "Upload failed: " ++ toString code ++ " - " ++ reason ≠
        "Authentication failed: Invalid API key")
    ∧ (∀ status reason bodyJson, status ≠ 401 → status ≠ 200 →
      upload_chunk (.response status reason bodyJson) =
        .error ⟨"RuntimeError",
          "Upload failed: " ++ toString status ++ " - " ++ reason⟩ ∧
      "Upload failed: " ++ toString status ++ " - " ++ reason ≠
        "Authentication failed: Invalid API key")
    ∧ (∀ reason, upload_chunk (.urlError reason) =
        .error ⟨"RuntimeError", "Upload failed: " ++ reason⟩ ∧
      "Upload failed: " ++ reason ≠
        "Authentication failed: Invalid API key")
    ∧ (∀ outcome e, upload_chunk outcome = .error e →
        e.className = "RuntimeError") := by
  refine ⟨?_, ?_, ?_, ?_, ?_, ?_⟩
  · intro reason
    rfl
  · intro reason bodyJson
    rfl
  · intro code reason h
    refine ⟨?_, ?_⟩
    · rw [upload_chunk]
      rw [if_neg h]
    · rw [String.append_assoc, String.append_assoc]
      exact upload_failed_ne_auth _
  · intro status reason bodyJson h h200
    refine ⟨?_, ?_⟩
    · rw [upload_chunk]
      rw [if_neg h, if_pos h200]
    · rw [String.append_assoc, String.append_assoc]
      exact upload_failed_ne_auth _
  · intro reason
    exact ⟨rfl, upload_failed_ne_auth _⟩
  · intro outcome e h
    match outcome with
    | .response status reason bodyJson =>
      rw [upload_chunk] at h
      by_cases h1 : status = 401
      · rw [if_pos h1] at h
        cases h
        rfl
      · rw [if_neg h1] at h
        by_cases h2 : status ≠ 200
        · rw [if_pos h2] at h
          cases h
          rfl
        · rw [if_neg h2] at h
          cases h
    | .httpError code reason =>
      rw [upload_chunk] at h
      by_cases h1 : code = 401
      · rw [if_pos h1] at h
        cases h
        rfl
      · rw [if_neg h1] at h
        cases h
        rfl
    | .urlError reason =>
      rw [upload_chunk] at h
      cases h
      rfl

/-- Witness for C10 (amended) at status 503: the failure is a
RuntimeError whose message starts with "Upload failed: " and is not the
401 message. -/
theorem C10_distinct_auth_amended_witness :
    (503 : Nat) ≠ 401 ∧
    (upload_chunk (.httpError 503 "Unavailable") =
        .error ⟨"RuntimeError",
          "Upload failed: " ++ toString (503 : Nat) ++ " - " ++
            "Unavailable"⟩ ∧
      "Upload failed: " ++ toString (503 : Nat) ++ " - " ++ "Unavailable" ≠
        "Authentication failed: Invalid API key") :=
  ⟨by decide,
   C10_distinct_auth_amended.2.2.1 503 "Unavailable" (by decide)⟩

theorem lookupSession_append_self (l : List (String × String))
    (k v : String) (h : lookupSession l k = none) :
    lookupSession (l ++ [(k, v)]) k = some v := by
  induction l with
  | nil => simp [lookupSession]
  | cons p rest ih =>
    rw [List.cons_append, lookupSession]
    rw [lookupSession] at h
    by_cases hp : p.1 = k
    · rw [if_pos hp] at h
      cases h
    · rw [if_neg hp] at h ⊢
      exact ih h

theorem sanitize_ok_inv (cfg : ServerConfig) (nowMs : Nat)
    (st : ServerState) (fnm : String) (st1 : ServerState) (p a : String)
    (h : handle_sanitize_mode cfg nowMs st fnm = (st1, .ok (p, a))) :
    lookupSession st1.sessions fnm = some a
    ∧ p = joinPath cfg.uploadDir a
    ∧ insideRoot cfg p = true
    ∧ sanitizeRejected fnm = false
    ∧ ¬(basename fnm = "" ∨ basename fnm = "." ∨ basename fnm = "..") := by
  rw [handle_sanitize_mode] at h
  by_cases hrej : sanitizeRejected fnm = true
  · rw [hrej] at h
    simp at h
  · have hrej2 : sanitizeRejected fnm = false := by
      simpa using hrej
    rw [hrej2] at h
    simp only [Bool.false_eq_true, if_false] at h
    by_cases hb : basename fnm = "" ∨ basename fnm = "." ∨ basename fnm = ".."
    · rw [if_pos hb] at h
      cases h
    · rw [if_neg hb] at h
      rcases hl : lookupSession st.sessions fnm with _ | name
      · rw [hl] at h
        by_cases hin : insideRoot cfg (joinPath cfg.uploadDir
            (if fileExists st.fs (joinPath cfg.uploadDir (basename fnm))
             then stemOf (basename fnm) ++ "_" ++ toString nowMs ++
               suffixOf (basename fnm)
             else basename fnm)) = true
        · rw [if_pos hin] at h
          obtain ⟨h1, h2⟩ := Prod.mk.injEq .. ▸ h
          cases h2
          subst h1
          refine ⟨?_, rfl, hin, hrej2, hb⟩
          exact lookupSession_append_self st.sessions fnm _ hl
        · rw [if_neg hin] at h
          simp at h
      · rw [hl] at h
        by_cases hin : insideRoot cfg (joinPath cfg.uploadDir name) = true
        · rw [if_pos hin] at h
          obtain ⟨h1, h2⟩ := Prod.mk.injEq .. ▸ h
          cases h2
          subst h1
          exact ⟨hl, rfl, hin, hrej2, hb⟩
        · rw [if_neg hin] at h
          simp at h

theorem sanitize_session_hit (cfg : ServerConfig) (nowMs : Nat)
    (stX : ServerState) (fnm a : String)
    (hrej : sanitizeRejected fnm = false)
    (hb : ¬(basename fnm = "" ∨ basename fnm = "." ∨ basename fnm = ".."))
    (hl : lookupSession stX.sessions fnm = some a)
    (hin : insideRoot cfg (joinPath cfg.uploadDir a) = true) :
    handle_sanitize_mode cfg nowMs stX fnm =
      (stX, .ok (joinPath cfg.uploadDir a, a)) := by
  rw [handle_sanitize_mode, hrej]
  simp only [Bool.false_eq_true, if_false]
  rw [if_neg hb, hl, if_pos hin]

theorem ignore_ok_inv (cfg : ServerConfig) (t : Nat) (r : String)
    (st : ServerState) (fnm : String) (st1 : ServerState) (p a : String)
    (h : handle_ignore_mode cfg t r st fnm = (st1, (p, a))) :
    lookupSession st1.sessions fnm = some a
    ∧ p = joinPath cfg.uploadDir a := by
  rw [handle_ignore_mode] at h
  rcases hl : lookupSession st.sessions fnm with _ | name
  · rw [hl] at h
    obtain ⟨h1, h2⟩ := Prod.mk.injEq .. ▸ h
    obtain ⟨h3, h4⟩ := Prod.mk.injEq .. ▸ h2
    subst h1
    subst h4
    subst h3
    constructor
    · exact lookupSession_append_self st.sessions fnm _ hl
    · rfl
  · rw [hl] at h
    obtain ⟨h1, h2⟩ := Prod.mk.injEq .. ▸ h
    obtain ⟨h3, h4⟩ := Prod.mk.injEq .. ▸ h2
    subst h1
    subst h4
    subst h3
    exact ⟨hl, rfl⟩

theorem ignore_session_hit (cfg : ServerConfig) (t : Nat) (r : String)
    (stX : ServerState) (fnm a : String)
    (hl : lookupSession stX.sessions fnm = some a) :
    handle_ignore_mode cfg t r stX fnm =
      (stX, (joinPath cfg.uploadDir a, a)) := by
  rw [handle_ignore_mode, hl]

theorem handle_upload_of_det (cfg : ServerConfig) (t : Nat) (r : String)
    (stX : ServerState) (fnm path1 actual : String) (j : Nat) (b : Bytes)
    (h : determine_output_path cfg t r stX fnm =
      (stX, .ok (path1, actual))) :
    handle_upload cfg t r stX fnm j b =
      ({ stX with fs := appendFile stX.fs path1 b }, .ok actual j fnm) := by
  rw [handle_upload, h]

/-- C4: session stability.  In sanitize or ignore mode, once a request
with some client filename has successfully resolved to an actual
server filename (recorded in the session map), every later request
carrying the same client filename, whatever its chunk index, timestamp,
random value, or intervening filesystem changes, resolves to exactly
the same actual filename and output path as long as the session map is
preserved, and its bytes are appended to that same output file. -/
theorem C4_session_stability (cfg : ServerConfig)
    (hmode : cfg.pathMode = .sanitize ∨ cfg.pathMode = .ignore)
    (t1 : Nat) (r1 : String) (st st1 : ServerState)
    (fnm path1 actual : String)
    (h1 : determine_output_path cfg t1 r1 st fnm =
      (st1, .ok (path1, actual))) :
    ∀ (t2 : Nat) (r2 : String) (stX : ServerState),
      stX.sessions = st1.sessions →
      determine_output_path cfg t2 r2 stX fnm = (stX, .ok (path1, actual))
      ∧ ∀ (j : Nat) (b : Bytes),
        handle_upload cfg t2 r2 stX fnm j b =
          ({ stX with fs := appendFile stX.fs path1 b },
            .ok actual j fnm) := by
  intro t2 r2 stX hsess
  have hdet2 : determine_output_path cfg t2 r2 stX fnm =
      (stX, .ok (path1, actual)) := by
    rcases hmode with hm | hm
    · simp only [determine_output_path, hm] at h1 ⊢
      obtain ⟨hl, hp, hin, hrej, hb⟩ :=
        sanitize_ok_inv cfg t1 st fnm st1 path1 actual h1
      subst hp
      exact sanitize_session_hit cfg t2 stX fnm actual hrej hb
        (by rw [hsess]; exact hl) hin
    · simp only [determine_output_path, hm] at h1 ⊢
      rcases hig : handle_ignore_mode cfg t1 r1 st fnm with ⟨stA, pA⟩
      rw [hig] at h1
      obtain ⟨hA, hB⟩ := Prod.mk.injEq .. ▸ h1
      have hB2 : pA = (path1, actual) := by
        injection hB
      have hig2 : handle_ignore_mode cfg t1 r1 st fnm =
          (st1, (path1, actual)) := by
        rw [hig, Prod.mk.injEq]
        exact ⟨hA, hB2⟩
      obtain ⟨hl, hp⟩ := ignore_ok_inv cfg t1 r1 st fnm st1 path1 actual hig2
      subst hp
      rw [ignore_session_hit cfg t2 r2 stX fnm actual
        (by rw [hsess]; exact hl)]
  exact ⟨hdet2, fun j b =>
    handle_upload_of_det cfg t2 r2 stX fnm path1 actual j b hdet2⟩

/-- Witness for C4: a first chunk of a.txt on a fresh sanitize-mode
server resolves to a.txt; a second request for the same client
filename, with a different timestamp and after the first chunk has been
written to disk, still resolves to a.txt and the same output path, and
appends to that file. -/
theorem C4_session_stability_witness :
    ((ServerConfig.pathMode ⟨"uploads", .sanitize, fun s => s⟩ = .sanitize
      ∨ ServerConfig.pathMode ⟨"uploads", .sanitize, fun s => s⟩ = .ignore)
     ∧ determine_output_path ⟨"uploads", .sanitize, fun s => s⟩ 99 "r1"
         ⟨[], ⟨[], []⟩⟩ "a.txt" =
       (⟨[("a.txt", "a.txt")], ⟨[], []⟩⟩, .ok ("uploads/a.txt", "a.txt"))
     ∧ (⟨[("a.txt", "a.txt")], ⟨[("uploads/a.txt", [1])], []⟩⟩ :
         ServerState).sessions =
       (⟨[("a.txt", "a.txt")], ⟨[], []⟩⟩ : ServerState).sessions)
    ∧ (determine_output_path ⟨"uploads", .sanitize, fun s => s⟩ 123 "r2"
         ⟨[("a.txt", "a.txt")], ⟨[("uploads/a.txt", [1])], []⟩⟩ "a.txt" =
       (⟨[("a.txt", "a.txt")], ⟨[("uploads/a.txt", [1])], []⟩⟩,
         .ok ("uploads/a.txt", "a.txt"))
      ∧ ∀ (j : Nat) (b : Bytes),
        handle_upload ⟨"uploads", .sanitize, fun s => s⟩ 123 "r2"
          ⟨[("a.txt", "a.txt")], ⟨[("uploads/a.txt", [1])], []⟩⟩
          "a.txt" j b =
        ({ (⟨[("a.txt", "a.txt")], ⟨[("uploads/a.txt", [1])], []⟩⟩ :
              ServerState) with
            fs := appendFile ⟨[("uploads/a.txt", [1])], []⟩
              "uploads/a.txt" b },
          .ok "a.txt" j "a.txt")) :=
  ⟨⟨Or.inl rfl, by decide, rfl⟩,
   C4_session_stability ⟨"uploads", .sanitize, fun s => s⟩ (Or.inl rfl)
     99 "r1" ⟨[], ⟨[], []⟩⟩ ⟨[("a.txt", "a.txt")], ⟨[], []⟩⟩
     "a.txt" "uploads/a.txt" "a.txt" (by decide)
     123 "r2" ⟨[("a.txt", "a.txt")], ⟨[("uploads/a.txt", [1])], []⟩⟩ rfl⟩

theorem sanitize_rejects (cfg : ServerConfig) (nowMs : Nat)
    (st : ServerState) (fnm : String)
    (h : containsChar (stripDotSlash fnm) '/' = true
      ∨ containsChar (stripDotSlash fnm) '\\' = true
      ∨ strContains fnm ".." = true
      ∨ strStartsWith fnm "/" = true
      ∨ strStartsWith fnm "\\\\" = true
      ∨ secondCharIs fnm ':' = true) :
    handle_sanitize_mode cfg nowMs st fnm =
      (st, .error (.invalidFilename
        "Filename must not contain path separators or traversal sequences")) := by
  have hrej : sanitizeRejected fnm = true := by
    rw [sanitizeRejected]
    rcases h with h | h | h | h | h | h <;> simp [h]
  rw [handle_sanitize_mode, hrej]
  simp

theorem sanitize_rejects_upload (cfg : ServerConfig) (t : Nat)
    (r : String) (st : ServerState) (fnm : String) (j : Nat) (b : Bytes)
    (hmode : cfg.pathMode = .sanitize)
    (h : containsChar (stripDotSlash fnm) '/' = true
      ∨ containsChar (stripDotSlash fnm) '\\' = true
      ∨ strContains fnm ".." = true
      ∨ strStartsWith fnm "/" = true
      ∨ strStartsWith fnm "\\\\" = true
      ∨ secondCharIs fnm ':' = true) :
    handle_upload cfg t r st fnm j b =
      (st, .badRequest
        "Filename must not contain path separators or traversal sequences") := by
  rw [handle_upload]
  simp only [determine_output_path, hmode]
  rw [sanitize_rejects cfg t st fnm h]

theorem allow_paths_rejects (cfg : ServerConfig) (st : ServerState)
    (fnm : String)
    (h : strContains (stripDotSlash fnm) ".." = true
      ∨ strStartsWith (stripDotSlash fnm) "/" = true
      ∨ strStartsWith (stripDotSlash fnm) "\\\\" = true
      ∨ secondCharIs (stripDotSlash fnm) ':' = true) :
    handle_allow_paths_mode cfg st fnm =
      (st, .error (.invalidFilename
        "Filename must not contain traversal sequences or absolute paths")) := by
  have hrej : allowPathsRejected (stripDotSlash fnm) = true := by
    rw [allowPathsRejected]
    rcases h with h | h | h | h <;> simp [h]
  rw [handle_allow_paths_mode, hrej]
  simp

theorem allow_paths_rejects_upload (cfg : ServerConfig) (t : Nat)
    (r : String) (st : ServerState) (fnm : String) (j : Nat) (b : Bytes)
    (hmode : cfg.pathMode = .allowPaths)
    (h : strContains (stripDotSlash fnm) ".." = true
      ∨ strStartsWith (stripDotSlash fnm) "/" = true
      ∨ strStartsWith (stripDotSlash fnm) "\\\\" = true
      ∨ secondCharIs (stripDotSlash fnm) ':' = true) :
    handle_upload cfg t r st fnm j b =
      (st, .badRequest
        "Filename must not contain traversal sequences or absolute paths") := by
  rw [handle_upload]
  simp only [determine_output_path, hmode]
  rw [allow_paths_rejects cfg st fnm h]

theorem allow_paths_accepts (cfg : ServerConfig) (st : ServerState)
    (fnm : String)
    (hrej : allowPathsRejected (stripDotSlash fnm) = false)
    (hin : insideRoot cfg (joinPath cfg.uploadDir
      (replaceChar (stripDotSlash fnm) '\\' '/')) = true) :
    handle_allow_paths_mode cfg st fnm =
      ({ st with fs := { st.fs with dirs :=
          (st.fs.dirs ++ dirPrefixes (joinPath cfg.uploadDir
            (replaceChar (stripDotSlash fnm) '\\' '/'))) } },
        .ok (joinPath cfg.uploadDir (replaceChar (stripDotSlash fnm) '\\' '/'),
          replaceChar (stripDotSlash fnm) '\\' '/')) := by
  rw [handle_allow_paths_mode, hrej]
  simp only [Bool.false_eq_true, if_false]
  rw [if_pos hin]

theorem allow_paths_escape_denied (cfg : ServerConfig) (st : ServerState)
    (fnm : String)
    (hrej : allowPathsRejected (stripDotSlash fnm) = false)
    (hin : insideRoot cfg (joinPath cfg.uploadDir
      (replaceChar (stripDotSlash fnm) '\\' '/')) = false) :
    handle_allow_paths_mode cfg st fnm =
      (st, .error (.accessDenied "Access denied: invalid path")) := by
  rw [handle_allow_paths_mode, hrej]
  simp only [Bool.false_eq_true, if_false]
  rw [hin]
  simp

theorem sanitize_escape_denied (cfg : ServerConfig) (nowMs : Nat)
    (st : ServerState) (fnm a : String)
    (hrej : sanitizeRejected fnm = false)
    (hb : ¬(basename fnm = "" ∨ basename fnm = "." ∨ basename fnm = ".."))
    (hl : lookupSession st.sessions fnm = some a)
    (hin : insideRoot cfg (joinPath cfg.uploadDir a) = false) :
    handle_sanitize_mode cfg nowMs st fnm =
      (st, .error (.accessDenied "Access denied: invalid path")) := by
  rw [handle_sanitize_mode, hrej]
  simp only [Bool.false_eq_true, if_false]
  rw [if_neg hb, hl, hin]
  simp

/-- C5 counterexample: the client filename "./a.txt" contains the path
separator '/', yet sanitize mode accepts it and writes to a.txt: the
separator check runs only after a leading "./" has been stripped, so
not every filename containing a separator is rejected. -/
theorem C5_counterexample :
    containsChar "./a.txt" '/' = true
    ∧ handle_sanitize_mode ⟨"uploads", .sanitize, fun s => s⟩ 0
        ⟨[], ⟨[], []⟩⟩ "./a.txt" =
      (⟨[("./a.txt", "a.txt")], ⟨[], []⟩⟩,
        .ok ("uploads/a.txt", "a.txt")) := by
  refine ⟨by decide, by decide⟩

/-- C5 (amended): in sanitize mode a client filename is rejected with a
400 validation error, before any bytes are written, whenever it still
contains a path separator after a leading ./ or .\ has been stripped,
or its original form contains the substring .. or an absolute or
drive-rooted prefix; in allow-paths mode, after stripping a leading ./
or .\, filenames containing .. or absolute or drive-rooted are rejected
with 400, accepted nested relative paths resolve below the upload root
with every intermediate directory created, and in both modes a resolved
output path that does not stay inside the upload root is rejected with
403 (and accepted sanitize results always passed the inside-root
check). -/
theorem C5_path_escape_amended :
    (∀ (cfg : ServerConfig) (nowMs : Nat) (st : ServerState) (fnm : String),
      (containsChar (stripDotSlash fnm) '/' = true
        ∨ containsChar (stripDotSlash fnm) '\\' = true
        ∨ strContains fnm ".." = true
        ∨ strStartsWith fnm "/" = true
        ∨ strStartsWith fnm "\\\\" = true
        ∨ secondCharIs fnm ':' = true) →
      handle_sanitize_mode cfg nowMs st fnm =
        (st, .error (.invalidFilename
          "Filename must not contain path separators or traversal sequences")))
    ∧ (∀ (cfg : ServerConfig) (t : Nat) (r : String) (st : ServerState)
        (fnm : String) (j : Nat) (b : Bytes),
      cfg.pathMode = .sanitize →
      (containsChar (stripDotSlash fnm) '/' = true
        ∨ containsChar (stripDotSlash fnm) '\\' = true
        ∨ strContains fnm ".." = true
        ∨ strStartsWith fnm "/" = true
        ∨ strStartsWith fnm "\\\\" = true
        ∨ secondCharIs fnm ':' = true) →
      handle_upload cfg t r st fnm j b =
        (st, .badRequest
          "Filename must not contain path separators or traversal sequences"))
    ∧ (∀ (cfg : ServerConfig) (st : ServerState) (fnm : String),
      (strContains (stripDotSlash fnm) ".." = true
        ∨ strStartsWith (stripDotSlash fnm) "/" = true
        ∨ strStartsWith (stripDotSlash fnm) "\\\\" = true
        ∨ secondCharIs (stripDotSlash fnm) ':' = true) →
      handle_allow_paths_mode cfg st fnm =
        (st, .error (.invalidFilename
          "Filename must not contain traversal sequences or absolute paths")))
    ∧ (∀ (cfg : ServerConfig) (t : Nat) (r : String) (st : ServerState)
        (fnm : String) (j : Nat) (b : Bytes),
      cfg.pathMode = .allowPaths →
      (strContains (stripDotSlash fnm) ".." = true
        ∨ strStartsWith (stripDotSlash fnm) "/" = true
        ∨ strStartsWith (stripDotSlash fnm) "\\\\" = true
        ∨ secondCharIs (stripDotSlash fnm) ':' = true) →
      handle_upload cfg t r st fnm j b =
        (st, .badRequest
          "Filename must not contain traversal sequences or absolute paths"))
    ∧ (∀ (cfg : ServerConfig) (st : ServerState) (fnm : String),
      allowPathsRejected (stripDotSlash fnm) = false →
      insideRoot cfg (joinPath cfg.uploadDir
        (replaceChar (stripDotSlash fnm) '\\' '/')) = true →
      handle_allow_paths_mode cfg st fnm =
        ({ st with fs := { st.fs with dirs :=
            (st.fs.dirs ++ dirPrefixes (joinPath cfg.uploadDir
              (replaceChar (stripDotSlash fnm) '\\' '/'))) } },
          .ok (joinPath cfg.uploadDir
              (replaceChar (stripDotSlash fnm) '\\' '/'),
            replaceChar (stripDotSlash fnm) '\\' '/')))
    ∧ (∀ (cfg : ServerConfig) (st : ServerState) (fnm : String),
      allowPathsRejected (stripDotSlash fnm) = false →
      insideRoot cfg (joinPath cfg.uploadDir
        (replaceChar (stripDotSlash fnm) '\\' '/')) = false →
      handle_allow_paths_mode cfg st fnm =
        (st, .error (.accessDenied "Access denied: invalid path")))
    ∧ (∀ (cfg : ServerConfig) (nowMs : Nat) (st : ServerState)
        (fnm a : String),
      sanitizeRejected fnm = false →
      ¬(basename fnm = "" ∨ basename fnm = "." ∨ basename fnm = "..") →
      lookupSession st.sessions fnm = some a →
      insideRoot cfg (joinPath cfg.uploadDir a) = false →
      handle_sanitize_mode cfg nowMs st fnm =
        (st, .error (.accessDenied "Access denied: invalid path")))
    ∧ (∀ (cfg : ServerConfig) (nowMs : Nat) (st st1 : ServerState)
        (fnm p a : String),
      handle_sanitize_mode cfg nowMs st fnm = (st1, .ok (p, a)) →
      insideRoot cfg p = true) :=
  ⟨sanitize_rejects, sanitize_rejects_upload, allow_paths_rejects,
   allow_paths_rejects_upload, allow_paths_accepts,
   allow_paths_escape_denied, sanitize_escape_denied,
   fun cfg nowMs st st1 fnm p a h =>
     (sanitize_ok_inv cfg nowMs st fnm st1 p a h).2.2.1⟩

/-- Witness for C5 (amended): b/c.txt is rejected by sanitize mode with
the 400 message, and in allow-paths mode docs/sub/c.txt is accepted
with the intermediate directories uploads/docs and uploads/docs/sub
created. -/
theorem C5_path_escape_amended_witness :
    (containsChar (stripDotSlash "b/c.txt") '/' = true
      ∧ allowPathsRejected (stripDotSlash "docs/sub/c.txt") = false
      ∧ insideRoot ⟨"uploads", .allowPaths, fun s => s⟩
          (joinPath "uploads"
            (replaceChar (stripDotSlash "docs/sub/c.txt") '\\' '/')) = true)
    ∧ (handle_sanitize_mode ⟨"uploads", .sanitize, fun s => s⟩ 0
          ⟨[], ⟨[], []⟩⟩ "b/c.txt" =
        (⟨[], ⟨[], []⟩⟩, .error (.invalidFilename
          "Filename must not contain path separators or traversal sequences"))
      ∧ handle_allow_paths_mode ⟨"uploads", .allowPaths, fun s => s⟩
          ⟨[], ⟨[], []⟩⟩ "docs/sub/c.txt" =
        ({ (⟨[], ⟨[], []⟩⟩ : ServerState) with fs :=
            { (⟨[], ⟨[], []⟩⟩ : ServerState).fs with dirs :=
              (([] : List String) ++ dirPrefixes (joinPath "uploads"
                (replaceChar (stripDotSlash "docs/sub/c.txt") '\\' '/'))) } },
          .ok (joinPath "uploads"
              (replaceChar (stripDotSlash "docs/sub/c.txt") '\\' '/'),
            replaceChar (stripDotSlash "docs/sub/c.txt") '\\' '/'))) :=
  ⟨⟨by decide, by decide, by decide⟩,
   ⟨C5_path_escape_amended.1 ⟨"uploads", .sanitize, fun s => s⟩ 0
      ⟨[], ⟨[], []⟩⟩ "b/c.txt" (Or.inl (by decide)),
    C5_path_escape_amended.2.2.2.2.1 ⟨"uploads", .allowPaths, fun s => s⟩
      ⟨[], ⟨[], []⟩⟩ "docs/sub/c.txt" (by decide) (by decide)⟩⟩
